import Mathlib

/-!
Verification of the safmat text-formatting engine (`safmat.hpp`).

The embedding models the format-string scanning engine (`xformat_to`), the
type-erased argument list (`FormatArg` / `FormatContext`), the shared
specifier-grammar helpers (`NestedSizeArgFormatter`, `PaddedFormatter`,
`NumericFormatter`) and the built-in integral, string and container
formatters.  Text is `List Char`; machine `std::size_t` arithmetic is `Nat`
taken modulo `2 ^ 64` where the source performs it on `std::size_t`.

The scanner's cursor is a `std::string_view` iterator.  The source
dereferences the cursor one past a consumed character without re-checking
`it != end(fmt)`; every call site hands it text backed by a NUL-terminated
buffer, so a read at the end position yields the terminator.  The embedding
models this with `peek`, which returns `'\x00'` on the empty remainder.
-/

namespace Safmat

/-- Read the character under the cursor; at end of input this models the
NUL terminator of the backing buffer. -/
def peek : List Char → Char
  | [] => '\x00'
  | c :: _ => c

/-- The modulus of `std::size_t` arithmetic, `2 ^ 64`. -/
def SIZE_MOD : Nat := 2 ^ 64

/-- The digit-accumulation loops (`idx = idx * 10 + (*it++ - '0')`) on
`std::size_t`. -/
def parse_number_go (acc : Nat) : List Char → Nat × List Char
  | [] => (acc, [])
  | c :: rest =>
    if c.isDigit then parse_number_go ((acc * 10 + (c.toNat - '0'.toNat)) % SIZE_MOD) rest
    else (acc, c :: rest)

def parse_number (l : List Char) : Nat × List Char := parse_number_go 0 l

/-- Model of `NestedSizeArgFormatter::arg_rep`: monostate / direct size / indirect
reference (with optional explicit index). -/
inductive SizeRep where
  | unspecified : SizeRep
  | direct : Nat → SizeRep
  | indirect : Option Nat → SizeRep
deriving DecidableEq

/-- Model of `NestedSizeArgFormatter`: a deferred size plus its resolved cache. -/
structure NestedSize where
  arg_rep : SizeRep := .unspecified
  arg : Option Nat := none
deriving DecidableEq

/-- Model of `NestedSizeArgFormatter::parse`. -/
def NestedSize.parse (ns : NestedSize) (input : List Char) :
    Except String (Bool × NestedSize × List Char) :=
  if (peek input).isDigit then
    .ok (true, { ns with arg_rep := .direct (parse_number input).1 }, (parse_number input).2)
  else if peek input = '{' then
    let in1 := input.tail
    let hasIdx := (peek in1).isDigit
    let idx : Option Nat := if hasIdx then some (parse_number in1).1 else none
    let in2 := if hasIdx then (parse_number in1).2 else in1
    if peek in2 = '}' then
      .ok (true, { ns with arg_rep := .indirect idx }, in2.tail)
    else .error "Expected \x27\x7d\x27 for nested argument."
  else .ok (false, ns, input)

/-- Data of `PaddedFormatter`: alignment (`fill`), fill character (`padding`)
and the width. -/
structure Padded where
  fill : Char := '<'
  padding : Char := ' '
  width : NestedSize := {}
deriving DecidableEq

def isFillChar (c : Char) : Bool := c = '<' || c = '>' || c = '^'

/-- Model of `PaddedFormatter::parse_fill`. -/
def Padded.parse_fill (p : Padded) (input : List Char) : Padded × List Char :=
  if isFillChar (peek input) then
    ({ p with padding := ' ', fill := peek input }, input.tail)
  else if peek input ≠ '\x00' ∧ isFillChar (peek input.tail) then
    ({ p with padding := peek input, fill := peek input.tail }, input.tail.tail)
  else (p, input)

def Padded.widthVal (p : Padded) : Nat := p.width.arg.getD 0

/-- The characters `PaddedFormatter::print_padding` writes. -/
def Padded.padChars (p : Padded) (len add : Nat) : List Char :=
  List.replicate (if p.fill = '^' then (len + add) / 2 else len) p.padding

/-- The characters `PaddedFormatter::pre_format` writes. -/
def Padded.preChars (p : Padded) (len : Nat) : List Char :=
  if len < p.widthVal ∧ (p.fill = '>' ∨ p.fill = '^') then
    p.padChars (p.widthVal - len) 0
  else []

/-- The characters `PaddedFormatter::post_format` writes. -/
def Padded.postChars (p : Padded) (len : Nat) : List Char :=
  if len < p.widthVal ∧ (p.fill = '<' ∨ p.fill = '^') then
    p.padChars (p.widthVal - len) 1
  else []

/-- Model of `IntegralFormatter` (which inherits `NumericFormatter`, which inherits
`PaddedFormatter{'>', '\0'}`). -/
structure IntegralFmt where
  pad : Padded := { fill := '>', padding := '\x00' }
  sign : Char := '-'
  alternate : Bool := false
  pad_zero : Bool := false
  rep : Char := 'd'
deriving DecidableEq

/-- Model of `StringFormatter` (inherits `PaddedFormatter` with its defaults and
`PrecisionFormatter`). -/
structure StringFmt where
  pad : Padded := {}
  prec : NestedSize := {}
deriving DecidableEq

/-- Model of `PrecisionFormatter::parse_prec`. -/
def parse_prec (ns : NestedSize) (input : List Char) :
    Except String (NestedSize × List Char) :=
  if peek input = '.' then
    match ns.parse input.tail with
    | .error m => .error m
    | .ok (true, ns1, rest) => .ok (ns1, rest)
    | .ok (false, _, _) => .error "Expected precision."
  else .ok (ns, input)

/-- The sign step of `NumericFormatter::parse`. -/
def parse_sign (f : IntegralFmt) (input : List Char) : IntegralFmt × List Char :=
  if peek input = '+' ∨ peek input = '-' ∨ peek input = ' ' then
    ({ f with sign := peek input }, input.tail)
  else (f, input)

/-- The alternate-form step of `NumericFormatter::parse`. -/
def parse_alt (f : IntegralFmt) (input : List Char) : IntegralFmt × List Char :=
  if peek input = '#' then ({ f with alternate := true }, input.tail) else (f, input)

/-- The `'0'` step of `NumericFormatter::parse`: zero-pad mode is recorded
only when no explicit fill/alignment was parsed (`padding` still `'\0'`). -/
def parse_zero (f : IntegralFmt) (input : List Char) : IntegralFmt × List Char :=
  if peek input = '0' then
    ({ f with pad_zero := f.pad.padding == '\x00' }, input.tail)
  else (f, input)

/-- The representation switch of `IntegralFormatter::parse` (after the
locale check). -/
def parse_rep (f : IntegralFmt) (is_bool : Bool) (input : List Char) :
    Except String (IntegralFmt × List Char) :=
  if peek input = 'L' then
    .error "Locale-specific formatting is not implemented/supported."
  else if peek input = 'b' ∨ peek input = 'B' ∨ peek input = 'c' ∨ peek input = 'd' ∨
      peek input = 'o' ∨ peek input = 'x' ∨ peek input = 'X' then
    .ok ({ f with rep := peek input }, input.tail)
  else if peek input = '}' then
    .ok (f, input)
  else if peek input = 's' ∧ is_bool = true then
    .ok ({ f with rep := 's' }, input.tail)
  else .error "Expected \x27\x7d\x27."

/-- Model of `NumericFormatter::parse` followed by `IntegralFormatter::parse`'s
locale check and representation switch. -/
def IntegralFmt.parse (f0 : IntegralFmt) (is_bool : Bool) (input : List Char) :
    Except String (IntegralFmt × List Char) :=
  let s0 := f0.pad.parse_fill input
  let s1 := parse_sign { f0 with pad := s0.1 } s0.2
  let s2 := parse_alt s1.1 s1.2
  let s3 := parse_zero s2.1 s2.2
  match s3.1.pad.width.parse s3.2 with
  | .error m => .error m
  | .ok (_, w, in5) => parse_rep { s3.1 with pad := { s3.1.pad with width := w } } is_bool in5

/-- Model of `StringFormatter::parse`. -/
def StringFmt.parse (f0 : StringFmt) (input : List Char) :
    Except String (StringFmt × List Char) :=
  let pf := f0.pad.parse_fill input
  match pf.1.width.parse pf.2 with
  | .error m => .error m
  | .ok (_, w, in2) =>
    let f1 : StringFmt := { f0 with pad := { pf.1 with width := w } }
    match parse_prec f1.prec in2 with
    | .error m => .error m
    | .ok (pr, in3) =>
      let f2 := { f1 with prec := pr }
      if peek in3 = 's' then .ok (f2, in3.tail) else .ok (f2, in3)

/-- Erased arguments: one value moved in, paired with the default-constructed
`Formatter` matched to its type (`FormatArg::FormatArgImpl<T>`).  Containers
are modelled at element type `int`, as exercised by the repository. -/
inductive Arg where
  | intA (value : Int) (fmt : IntegralFmt)
  | boolA (value : Bool) (fmt : IntegralFmt)
  | charA (value : Char) (fmt : IntegralFmt)
  | strA (value : List Char) (fmt : StringFmt)
  | listA (value : List Int) (fmt : IntegralFmt)
deriving DecidableEq

instance : Inhabited Arg := ⟨.intA 0 {}⟩

/-- Model of `FormatArgImpl::reset_fmt`: replace the formatter with the
default-constructed one for the value's type (`Formatter<bool>` defaults its
representation to `'s'`, `Formatter<char>` to `'c'`). -/
def Arg.reset_fmt : Arg → Arg
  | .intA n _ => .intA n {}
  | .boolA b _ => .boolA b { rep := 's' }
  | .charA c _ => .charA c { rep := 'c' }
  | .strA s _ => .strA s {}
  | .listA l _ => .listA l {}

/-- Model of `FormatArgImpl::to_size_t`: defined exactly for integral value types,
as `std::size_t(value)` (conversion modulo `2 ^ 64`). -/
def Arg.to_size_t : Arg → Option Nat
  | .intA n _ => some ((n % (SIZE_MOD : Int)).toNat)
  | .boolA b _ => some (if b then 1 else 0)
  | .charA c _ => some c.toNat
  | .strA _ _ => none
  | .listA _ _ => none

/-- Model of `FormatArg::expect_size_t`. -/
def Arg.expect_size_t (a : Arg) : Except String Nat :=
  match a.to_size_t with
  | some n => .ok n
  | none => .error "Expected size as the nested argument."

/-- A format error: its message, paired with the bytes that had already been
written to the sink when it was thrown (the sink keeps them; the engine
performs no rollback). -/
abbrev FmtErr := String × List Char

/-- Model of `FormatContext`: the sink's accumulated output, the argument list and
the auto-increment cursor `carg`. -/
structure FormatContext where
  out : List Char
  args : List Arg
  carg : Nat
deriving DecidableEq

def FormatContext.write (ctx : FormatContext) (s : List Char) : FormatContext :=
  { ctx with out := ctx.out ++ s }

/-- Model of `FormatContext::operator[]`. -/
def FormatContext.getArg (ctx : FormatContext) (idx : Nat) : Except FmtErr Arg :=
  match ctx.args.get? idx with
  | some a => .ok a
  | none => .error ("Not enough format arguments.", ctx.out)

/-- Model of `FormatContext::next`, which is `(*this)[carg++]`. -/
def FormatContext.next (ctx : FormatContext) : Except FmtErr (Arg × FormatContext) :=
  match ctx.getArg ctx.carg with
  | .ok a => .ok (a, { ctx with carg := ctx.carg + 1 })
  | .error e => .error e

/-- Model of `NestedSizeArgFormatter::read`: resolve a deferred size, at most once
(`arg` caches the resolution). -/
def NestedSize.read (ns : NestedSize) (ctx : FormatContext) :
    Except FmtErr (NestedSize × FormatContext) :=
  if ns.arg.isSome then .ok (ns, ctx)
  else
    match ns.arg_rep with
    | .unspecified => .ok (ns, ctx)
    | .direct n => .ok ({ ns with arg := some n }, ctx)
    | .indirect none =>
      match ctx.next with
      | .error e => .error e
      | .ok (a, ctx1) =>
        match a.expect_size_t with
        | .ok n => .ok ({ ns with arg := some n }, ctx1)
        | .error m => .error (m, ctx1.out)
    | .indirect (some idx) =>
      match ctx.getArg idx with
      | .error e => .error e
      | .ok a =>
        match a.expect_size_t with
        | .ok n => .ok ({ ns with arg := some n }, ctx)
        | .error m => .error (m, ctx.out)

/-- Hexadecimal digit characters, lowercase, as produced by
`std::to_chars`. -/
def hexDigitChar (d : Nat) : Char :=
  if d < 10 then Char.ofNat ('0'.toNat + d) else Char.ofNat ('a'.toNat + (d - 10))

def natToBase_go (base : Nat) (fuel : Nat) (n : Nat) (acc : List Char) : List Char :=
  match fuel with
  | 0 => acc
  | fuel1 + 1 =>
    if n = 0 then acc
    else natToBase_go base fuel1 (n / base) (hexDigitChar (n % base) :: acc)

/-- The digit string `std::to_chars` produces for a non-negative value:
minimal, lowercase, `"0"` for zero. -/
def natToBase (base n : Nat) : List Char :=
  if n = 0 then ['0'] else natToBase_go base n n []

/-- The conversion closure `f` built in `Formatter<integral>::format_to`:
base 0 encodes the character cast, base 1 the boolean strings, otherwise
`std::to_chars` digits of the absolute value. -/
def intConv (x : Nat) (base : Nat) : List Char :=
  if base = 0 then [Char.ofNat (x % 256)]
  else if base = 1 then (if x ≠ 0 then "true".toList else "false".toList)
  else natToBase base x

/-- The representation switch of `IntegralFormatter::format` that assembles
the core number text (base prefix included when `alternate`). -/
def IntegralFmt.make_number (f : IntegralFmt) (conv : Nat → List Char) :
    Except String (List Char) :=
  if f.rep = 'b' ∨ f.rep = 'B' ∨ f.rep = 'x' ∨ f.rep = 'X' then
    .ok ((if f.alternate then ['0', f.rep] else []) ++
      conv (if f.rep.toLower = 'b' then 2 else 16))
  else if f.rep = 'c' ∨ f.rep = 'd' ∨ f.rep = '\x00' then
    .ok (conv (if f.rep = 'c' then 0 else 10))
  else if f.rep = 'o' then
    .ok ((if f.alternate then ['0'] else []) ++ conv 8)
  else if f.rep = 's' then .ok (conv 1)
  else .error "Unimplemented operation."

/-- The sign column (`sign_str` in `NumericFormatter::format`): negative
values always print `'-'`; otherwise `'+'` or `' '` modes print their
character. -/
def sign_chars (f : IntegralFmt) (negative : Bool) : List Char :=
  if negative then ['-'] else if f.sign ≠ '-' then [f.sign] else []

/-- Model of `NumericFormatter::format`. -/
def numeric_format (f : IntegralFmt) (ctx : FormatContext) (number : List Char)
    (negative : Bool) : Except FmtErr (IntegralFmt × FormatContext) :=
  let sign_str := sign_chars f negative
  match f.pad.width.read ctx with
  | .error e => .error e
  | .ok (w, ctx1) =>
    let f1 : IntegralFmt := { f with pad := { f.pad with width := w } }
    if f1.pad_zero = true then
      let ctx2 := ctx1.write sign_str
      let ctx3 :=
        if number.length < f1.pad.widthVal then
          ctx2.write (List.replicate (f1.pad.widthVal - number.length) '0')
        else ctx2
      .ok (f1, ctx3.write number)
    else
      let len := sign_str.length + number.length
      let ctx2 := ctx1.write (f1.pad.preChars len)
      let ctx3 := (ctx2.write sign_str).write number
      .ok (f1, ctx3.write (f1.pad.postChars len))

/-- Model of `IntegralFormatter::format`. -/
def IntegralFmt.format (f : IntegralFmt) (ctx : FormatContext) (conv : Nat → List Char)
    (negative : Bool) : Except FmtErr (IntegralFmt × FormatContext) :=
  match f.pad.width.read ctx with
  | .error e => .error e
  | .ok (w, ctx1) =>
    let f1 : IntegralFmt := { f with pad := { f.pad with width := w } }
    match f1.make_number conv with
    | .error m => .error (m, ctx1.out)
    | .ok number => numeric_format f1 ctx1 number negative

/-- Model of `Formatter<integral>::format_to` for a signed value: split off the sign,
convert the absolute value. -/
def intFormat_to (f : IntegralFmt) (ctx : FormatContext) (x : Int) :
    Except FmtErr (IntegralFmt × FormatContext) :=
  f.format ctx (intConv x.natAbs) (decide (x < 0))

/-- Model of `StringFormatter::format_to`. -/
def StringFmt.format_to (f : StringFmt) (ctx : FormatContext) (s : List Char) :
    Except FmtErr (StringFmt × FormatContext) :=
  match f.pad.width.read ctx with
  | .error e => .error e
  | .ok (w, ctx1) =>
    let f1 : StringFmt := { f with pad := { f.pad with width := w } }
    match f1.prec.read ctx1 with
    | .error e => .error e
    | .ok (pr, ctx2) =>
      let f2 := { f1 with prec := pr }
      let len := match pr.arg with
        | some p => min p s.length
        | none => s.length
      let ctx3 := ctx2.write (f2.pad.preChars len)
      let ctx4 := ctx3.write (s.take len)
      .ok (f2, ctx4.write (f2.pad.postChars len))

/-- The `while (it != e)` loop of `Formatter<C>::format_to`: separator then
element, with the shared element-formatter state threaded through. -/
def listRest (f : IntegralFmt) (ctx : FormatContext) :
    List Int → Except FmtErr (IntegralFmt × FormatContext)
  | [] => .ok (f, ctx)
  | x :: xs =>
    match intFormat_to f (ctx.write (", ".toList)) x with
    | .error e => .error e
    | .ok (f1, ctx1) => listRest f1 ctx1 xs

/-- Model of `Formatter<C>::format_to` for a container of `int`: brackets around the
elements, each rendered by the one shared inherited element formatter. -/
def listFormat_to (f : IntegralFmt) (ctx : FormatContext) (l : List Int) :
    Except FmtErr (IntegralFmt × FormatContext) :=
  let ctx0 := ctx.write ['[']
  match l with
  | [] => .ok (f, ctx0.write [']'])
  | x :: xs =>
    match intFormat_to f ctx0 x with
    | .error e => .error e
    | .ok (f1, ctx1) =>
      match listRest f1 ctx1 xs with
      | .error e => .error e
      | .ok (f2, ctx2) => .ok (f2, ctx2.write [']'])

/-- Model of `FormatArgImpl::parse`: delegate to the held formatter
(`Formatter<bool>` admits the `'s'` representation). -/
def Arg.parse : Arg → List Char → Except String (Arg × List Char)
  | .intA n f, input =>
    match f.parse false input with
    | .error m => .error m
    | .ok (f1, rest) => .ok (.intA n f1, rest)
  | .boolA b f, input =>
    match f.parse true input with
    | .error m => .error m
    | .ok (f1, rest) => .ok (.boolA b f1, rest)
  | .charA c f, input =>
    match f.parse false input with
    | .error m => .error m
    | .ok (f1, rest) => .ok (.charA c f1, rest)
  | .strA s f, input =>
    match f.parse input with
    | .error m => .error m
    | .ok (f1, rest) => .ok (.strA s f1, rest)
  | .listA l f, input =>
    match f.parse false input with
    | .error m => .error m
    | .ok (f1, rest) => .ok (.listA l f1, rest)

/-- Model of `FormatArgImpl::format_to`: delegate to the held formatter, which may
update its own state (width cache) and the context. -/
def Arg.format_to : Arg → FormatContext → Except FmtErr (Arg × FormatContext)
  | .intA n f, ctx =>
    match intFormat_to f ctx n with
    | .error e => .error e
    | .ok (f1, ctx1) => .ok (.intA n f1, ctx1)
  | .boolA b f, ctx =>
    match intFormat_to f ctx (if b then 1 else 0) with
    | .error e => .error e
    | .ok (f1, ctx1) => .ok (.boolA b f1, ctx1)
  | .charA c f, ctx =>
    match intFormat_to f ctx (c.toNat : Int) with
    | .error e => .error e
    | .ok (f1, ctx1) => .ok (.charA c f1, ctx1)
  | .strA s f, ctx =>
    match f.format_to ctx s with
    | .error e => .error e
    | .ok (f1, ctx1) => .ok (.strA s f1, ctx1)
  | .listA l f, ctx =>
    match listFormat_to f ctx l with
    | .error e => .error e
    | .ok (f1, ctx1) => .ok (.listA l f1, ctx1)

/-- The index-resolution step of a placeholder: explicit decimal index, or
the auto-increment cursor (which it then advances). -/
def resolveIndex (ctx : FormatContext) (input : List Char) :
    Nat × List Char × FormatContext :=
  if (peek input).isDigit then
    ((parse_number input).1, (parse_number input).2, ctx)
  else (ctx.carg, input, { ctx with carg := ctx.carg + 1 })

/-- The optional specifier step of a placeholder: on `':'`, advance past it
and hand the cursor to the argument's `parse`. -/
def parseStep (arg1 : Arg) (in1 : List Char) : Except String (Arg × List Char) :=
  if peek in1 = ':' then arg1.parse in1.tail else .ok (arg1, in1)

/-- The placeholder branch of `xformat_to`, entered after consuming a `'{'`
not followed by another `'{'`: resolve the index, reset the argument's
formatter, optionally parse a specifier after `':'`, require `'}'`, then
format.  Returns the updated context and remaining input. -/
def scanPlaceholder (ctx : FormatContext) (input : List Char) :
    Except FmtErr (FormatContext × List Char) :=
  let r := resolveIndex ctx input
  let idx := r.1
  let in1 := r.2.1
  let ctx1 := r.2.2
  match ctx1.getArg idx with
  | .error e => .error e
  | .ok arg0 =>
    match parseStep arg0.reset_fmt in1 with
    | .error m => .error (m, ctx1.out)
    | .ok (arg2, in2) =>
      if peek in2 = '}' then
        match arg2.format_to ctx1 with
        | .error e => .error e
        | .ok (arg3, ctx2) =>
          .ok ({ ctx2 with args := ctx2.args.set idx arg3 }, in2.tail)
      else .error ("Expected \x27\x7d\x27.", ctx1.out)

/-! Consumption lemmas: every parsing step leaves a sublist of its input,
which bounds the scanner loop. -/

theorem parse_number_go_sublist (acc : Nat) (l : List Char) :
    (parse_number_go acc l).2.Sublist l := by
  induction l generalizing acc with
  | nil => simp [parse_number_go]
  | cons c rest ih =>
    by_cases h : c.isDigit
    · simpa [parse_number_go, h] using ((ih _).cons c)
    · simp [parse_number_go, h]

theorem parse_number_sublist (l : List Char) : (parse_number l).2.Sublist l :=
  parse_number_go_sublist 0 l

theorem ite_tail_sublist (c : Prop) [Decidable c] (l : List Char) :
    (if c then l.tail else l).Sublist l := by
  split
  · exact List.tail_sublist l
  · exact List.Sublist.refl l

theorem nested_parse_sublist {ns : NestedSize} {input : List Char}
    {b : Bool} {ns1 : NestedSize} {rest : List Char}
    (h : ns.parse input = .ok (b, ns1, rest)) : rest.Sublist input := by
  unfold NestedSize.parse at h
  split at h
  · cases h
    exact parse_number_sublist input
  · split at h
    · dsimp only at h
      split at h
      · split at h
        · cases h
          exact (List.tail_sublist _).trans ((parse_number_sublist _).trans (List.tail_sublist _))
        · cases h
      · split at h
        · cases h
          exact (List.tail_sublist _).trans (List.tail_sublist _)
        · cases h
    · cases h
      exact List.Sublist.refl input

theorem Padded.parse_fill_sublist (p : Padded) (input : List Char) :
    (p.parse_fill input).2.Sublist input := by
  unfold Padded.parse_fill
  split
  · exact List.tail_sublist input
  · split
    · exact (List.tail_sublist _).trans (List.tail_sublist input)
    · exact List.Sublist.refl input

theorem parse_prec_sublist {ns ns1 : NestedSize} {input rest : List Char}
    (h : parse_prec ns input = .ok (ns1, rest)) : rest.Sublist input := by
  unfold parse_prec at h
  split at h
  · split at h
    · cases h
    · rename_i heq
      cases h
      exact (nested_parse_sublist heq).trans (List.tail_sublist input)
    · cases h
  · cases h
    exact List.Sublist.refl input

theorem parse_sign_sublist (f : IntegralFmt) (input : List Char) :
    (parse_sign f input).2.Sublist input := by
  unfold parse_sign
  split
  · exact List.tail_sublist input
  · exact List.Sublist.refl input

theorem parse_alt_sublist (f : IntegralFmt) (input : List Char) :
    (parse_alt f input).2.Sublist input := by
  unfold parse_alt
  split
  · exact List.tail_sublist input
  · exact List.Sublist.refl input

theorem parse_zero_sublist (f : IntegralFmt) (input : List Char) :
    (parse_zero f input).2.Sublist input := by
  unfold parse_zero
  split
  · exact List.tail_sublist input
  · exact List.Sublist.refl input

theorem parse_rep_sublist {f : IntegralFmt} {is_bool : Bool} {input : List Char}
    {f1 : IntegralFmt} {rest : List Char}
    (h : parse_rep f is_bool input = .ok (f1, rest)) : rest.Sublist input := by
  unfold parse_rep at h
  split at h
  · cases h
  · split at h
    · cases h
      exact List.tail_sublist input
    · split at h
      · cases h
        exact List.Sublist.refl input
      · split at h
        · cases h
          exact List.tail_sublist input
        · cases h

theorem integral_parse_sublist {f0 : IntegralFmt} {is_bool : Bool}
    {input : List Char} {f1 : IntegralFmt} {rest : List Char}
    (h : f0.parse is_bool input = .ok (f1, rest)) : rest.Sublist input := by
  unfold IntegralFmt.parse at h
  dsimp only at h
  split at h
  · cases h
  · rename_i heq
    have htot := (nested_parse_sublist heq).trans
      ((parse_zero_sublist _ _).trans ((parse_alt_sublist _ _).trans
        ((parse_sign_sublist _ _).trans (Padded.parse_fill_sublist _ input))))
    exact (parse_rep_sublist h).trans htot

theorem string_parse_sublist {f0 : StringFmt} {input : List Char}
    {f1 : StringFmt} {rest : List Char}
    (h : f0.parse input = .ok (f1, rest)) : rest.Sublist input := by
  unfold StringFmt.parse at h
  dsimp only at h
  split at h
  · cases h
  · rename_i heq
    have h2 := (nested_parse_sublist heq).trans (Padded.parse_fill_sublist _ input)
    split at h
    · cases h
    · rename_i heq2
      have h3 := (parse_prec_sublist heq2).trans h2
      split at h
      · cases h
        exact (List.tail_sublist _).trans h3
      · cases h
        exact h3

theorem arg_parse_sublist {a : Arg} {input : List Char} {a1 : Arg} {rest : List Char}
    (h : a.parse input = .ok (a1, rest)) : rest.Sublist input := by
  unfold Arg.parse at h
  split at h
  · split at h
    · cases h
    · rename_i heq
      cases h
      exact integral_parse_sublist heq
  · split at h
    · cases h
    · rename_i heq
      cases h
      exact integral_parse_sublist heq
  · split at h
    · cases h
    · rename_i heq
      cases h
      exact integral_parse_sublist heq
  · split at h
    · cases h
    · rename_i heq
      cases h
      exact string_parse_sublist heq
  · split at h
    · cases h
    · rename_i heq
      cases h
      exact integral_parse_sublist heq

theorem resolveIndex_sublist (ctx : FormatContext) (input : List Char) :
    (resolveIndex ctx input).2.1.Sublist input := by
  unfold resolveIndex
  split
  · exact parse_number_sublist input
  · exact List.Sublist.refl input

theorem parseStep_sublist {a : Arg} {in1 : List Char} {a2 : Arg} {in2 : List Char}
    (h : parseStep a in1 = .ok (a2, in2)) : in2.Sublist in1 := by
  unfold parseStep at h
  split at h
  · exact (arg_parse_sublist h).trans (List.tail_sublist _)
  · cases h
    exact List.Sublist.refl _

theorem scanPlaceholder_sublist {ctx : FormatContext} {input : List Char}
    {ctx1 : FormatContext} {rest : List Char}
    (h : scanPlaceholder ctx input = .ok (ctx1, rest)) : rest.Sublist input := by
  unfold scanPlaceholder at h
  dsimp only at h
  split at h
  · cases h
  · split at h
    · cases h
    · rename_i arg2 in2 heq2
      have hin2 : in2.Sublist (resolveIndex ctx input).2.1 := parseStep_sublist heq2
      split at h
      · split at h
        · cases h
        · cases h
          exact (List.tail_sublist _).trans (hin2.trans (resolveIndex_sublist ctx input))
      · cases h

/-- The `while (it != end(fmt))` loop of `xformat_to`, with an explicit
iteration bound.  Every iteration consumes at least one character of the
remaining input, so a bound of `input.length` (as fixed by `xformat_to`
below, and certified by `xformat_go_fuel`) can never run out before the
input does; the bound-exhausted branch is unreachable. -/
def xformat_go : Nat → FormatContext → List Char → Except FmtErr FormatContext
  | 0, ctx, _ => .ok ctx
  | fuel + 1, ctx, input =>
    match input with
    | [] => .ok ctx
    | c :: rest =>
      if c = '{' then
        if peek rest = '{' then xformat_go fuel (ctx.write ['{']) rest.tail
        else
          match scanPlaceholder ctx rest with
          | .error e => .error e
          | .ok (ctx1, rest1) => xformat_go fuel ctx1 rest1
      else if c = '}' then
        if peek rest = '}' then xformat_go fuel (ctx.write ['}']) rest.tail
        else .error ("\x27\x7d\x27 must be escaped with \x27\x7d\x27.", ctx.out)
      else xformat_go fuel (ctx.write [c]) rest

/-- Model of `xformat_to`: the left-to-right template scan. -/
def xformat_to (ctx : FormatContext) (input : List Char) :
    Except FmtErr FormatContext :=
  xformat_go input.length ctx input

theorem xformat_go_nil (fuel : Nat) (ctx : FormatContext) :
    xformat_go fuel ctx [] = .ok ctx := by
  cases fuel <;> rfl

/-- The iteration bound of `xformat_go` is irrelevant as long as it is at
least the length of the remaining input: the loop consumes at least one
character per iteration. -/
theorem xformat_go_fuel : ∀ (f1 f2 : Nat) (ctx : FormatContext) (input : List Char),
    input.length ≤ f1 → input.length ≤ f2 →
    xformat_go f1 ctx input = xformat_go f2 ctx input := by
  intro f1
  induction f1 with
  | zero =>
    intro f2 ctx input h1 h2
    have hnil : input = [] := List.eq_nil_of_length_eq_zero (Nat.le_zero.mp h1)
    subst hnil
    rw [xformat_go_nil, xformat_go_nil]
  | succ f1 ih =>
    intro f2 ctx input h1 h2
    match input with
    | [] => rw [xformat_go_nil, xformat_go_nil]
    | c :: rest =>
      match f2 with
      | 0 => simp at h2
      | f2 + 1 =>
        have hr1 : rest.length ≤ f1 := by simpa using h1
        have hr2 : rest.length ≤ f2 := by simpa using h2
        simp only [xformat_go]
        by_cases hc : c = '{'
        · simp only [hc, if_true]
          by_cases hp : peek rest = '{'
          · simp only [hp, if_true]
            exact ih f2 _ _ ((List.tail_sublist rest).length_le.trans hr1)
              ((List.tail_sublist rest).length_le.trans hr2)
          · simp only [hp, if_false]
            cases hsp : scanPlaceholder ctx rest with
            | error e => rfl
            | ok p =>
              exact ih f2 _ _ ((scanPlaceholder_sublist hsp).length_le.trans hr1)
                ((scanPlaceholder_sublist hsp).length_le.trans hr2)
        · simp only [hc, if_false]
          by_cases hd : c = '}'
          · simp only [hd, if_true]
            by_cases hp : peek rest = '}'
            · simp only [hp, if_true]
              exact ih f2 _ _ ((List.tail_sublist rest).length_le.trans hr1)
                ((List.tail_sublist rest).length_le.trans hr2)
            · simp only [hp, if_false]
          · simp only [hd, if_false]
            exact ih f2 _ _ hr1 hr2

/-- Unfolding `xformat_to` over an empty template. -/
theorem xformat_to_nil (ctx : FormatContext) : xformat_to ctx [] = .ok ctx := rfl

/-- One step of the scan. -/
theorem xformat_to_cons (ctx : FormatContext) (c : Char) (rest : List Char) :
    xformat_to ctx (c :: rest) =
      if c = '{' then
        if peek rest = '{' then xformat_to (ctx.write ['{']) rest.tail
        else
          match scanPlaceholder ctx rest with
          | .error e => .error e
          | .ok (ctx1, rest1) => xformat_to ctx1 rest1
      else if c = '}' then
        if peek rest = '}' then xformat_to (ctx.write ['}']) rest.tail
        else .error ("\x27\x7d\x27 must be escaped with \x27\x7d\x27.", ctx.out)
      else xformat_to (ctx.write [c]) rest := by
  show xformat_go (rest.length + 1) ctx (c :: rest) = _
  simp only [xformat_go]
  by_cases hc : c = '{'
  · simp only [hc, if_true]
    by_cases hp : peek rest = '{'
    · simp only [hp, if_true]
      exact xformat_go_fuel _ _ _ _ ((List.tail_sublist rest).length_le) (le_refl _)
    · simp only [hp, if_false]
      cases hsp : scanPlaceholder ctx rest with
      | error e => rfl
      | ok p =>
        exact xformat_go_fuel _ _ _ _ ((scanPlaceholder_sublist hsp).length_le) (le_refl _)
  · simp only [hc, if_false]
    by_cases hd : c = '}'
    · simp only [hd, if_true]
      by_cases hp : peek rest = '}'
      · simp only [hp, if_true]
        exact xformat_go_fuel _ _ _ _ ((List.tail_sublist rest).length_le) (le_refl _)
      · simp only [hp, if_false]
    · simp only [hd, if_false]
      exact xformat_go_fuel _ _ _ _ (le_refl _) (le_refl _)

/-- Model of `safmat::format`: fresh context over a fresh sink, cursor at zero,
default-constructed formatters. -/
def format (fmt : String) (args : List Arg) : Except FmtErr (List Char) :=
  match xformat_to { out := [], args := args, carg := 0 } fmt.toList with
  | .ok ctx => .ok ctx.out
  | .error e => .error e

/-- The value kinds `to_size_t` is defined for (`std::integral<T>`). -/
def Arg.isIntegralKind : Arg → Bool
  | .intA .. => true
  | .boolA .. => true
  | .charA .. => true
  | .strA .. => false
  | .listA .. => false

theorem resolveIndex_args (ctx : FormatContext) (input : List Char) :
    (resolveIndex ctx input).2.2.args = ctx.args := by
  unfold resolveIndex
  split <;> rfl

theorem resolveIndex_out (ctx : FormatContext) (input : List Char) :
    (resolveIndex ctx input).2.2.out = ctx.out := by
  unfold resolveIndex
  split <;> rfl

/-- C1: rendering a placeholder whose resolved argument index is not below
the argument count throws the fatal index error at once: the error carries
exactly the bytes already written (they stay written, nothing further is
emitted), and the scan loop propagates the error, aborting the call.
Concretely, `"{5}"` against one argument fails with nothing written, and
`"ab{5}cd"` fails keeping exactly `"ab"`. -/
theorem c1_out_of_range_index_fatal :
    (∀ (ctx : FormatContext) (input : List Char),
      ctx.args.length ≤ (resolveIndex ctx input).1 →
      scanPlaceholder ctx input = .error ("Not enough format arguments.", ctx.out)) ∧
    (∀ (ctx : FormatContext) (rest : List Char) (e : FmtErr),
      peek rest ≠ '{' →
      scanPlaceholder ctx rest = .error e →
      xformat_to ctx ('{' :: rest) = .error e) ∧
    format "\x7b5\x7d" [.intA 7 {}] = .error ("Not enough format arguments.", []) ∧
    format "ab\x7b5\x7dcd" [.intA 7 {}] =
      .error ("Not enough format arguments.", "ab".toList) := by
  refine ⟨?_, ?_, rfl, rfl⟩
  · intro ctx input h
    unfold scanPlaceholder
    dsimp only
    have hget : (resolveIndex ctx input).2.2.getArg (resolveIndex ctx input).1 =
        .error ("Not enough format arguments.", ctx.out) := by
      unfold FormatContext.getArg
      rw [resolveIndex_args, resolveIndex_out, List.get?_eq_none.mpr h]
    rw [hget]
  · intro ctx rest e hpk hsp
    rw [xformat_to_cons]
    simp [hpk, hsp]

theorem c1_witness :
    scanPlaceholder { out := [], args := [.intA 7 {}], carg := 0 } "5\x7d".toList =
      .error ("Not enough format arguments.", []) ∧
    xformat_to { out := [], args := [.intA 7 {}], carg := 0 } ('{' :: "5\x7d".toList) =
      .error ("Not enough format arguments.", []) :=
  ⟨c1_out_of_range_index_fatal.1 _ _ (by decide),
   c1_out_of_range_index_fatal.2.1 _ _ _ (by decide)
     (c1_out_of_range_index_fatal.1 _ _ (by decide))⟩

/-- C2: a deferred width reference is left unresolved by `parse` (the
resolution cache `arg` is untouched), is resolved by `read` at format time,
and a reference already resolved is never resolved again.  Concretely,
`"{:0{}}"` with arguments `42, 5` renders `"00042"`. -/
theorem c2_deferred_width_lazy :
    (∀ (ns : NestedSize) (input : List Char) (b : Bool) (ns1 : NestedSize)
      (rest : List Char), ns.parse input = .ok (b, ns1, rest) → ns1.arg = ns.arg) ∧
    (∀ (ns : NestedSize) (ctx : FormatContext) (n : Nat),
      ns.arg = some n → ns.read ctx = .ok (ns, ctx)) ∧
    format "\x7b:0\x7b\x7d\x7d" [.intA 42 {}, .intA 5 {}] = .ok "00042".toList := by
  refine ⟨?_, ?_, rfl⟩
  · intro ns input b ns1 rest h
    unfold NestedSize.parse at h
    split at h
    · cases h
      rfl
    · split at h
      · dsimp only at h
        split at h
        · split at h
          · cases h
            rfl
          · cases h
        · split at h
          · cases h
            rfl
          · cases h
      · cases h
        rfl
  · intro ns ctx n h
    unfold NestedSize.read
    rw [h]
    rfl

theorem c2_witness :
    ({ arg_rep := .direct 9, arg := some 5 } : NestedSize).read
        { out := [], args := [], carg := 0 } =
      .ok ({ arg_rep := .direct 9, arg := some 5 },
        { out := [], args := [], carg := 0 }) ∧
    (({} : NestedSize).parse "\x7b\x7d".toList = .ok (true, { arg_rep := .indirect none, arg := none }, []) →
      ({ arg_rep := .indirect none, arg := none } : NestedSize).arg = ({} : NestedSize).arg) :=
  ⟨c2_deferred_width_lazy.2.1 _ _ 5 rfl,
   c2_deferred_width_lazy.1 {} "\x7b\x7d".toList true _ []⟩

/-- C6: coercing an argument to a size succeeds exactly when its value is
integral; the size returned is the one `to_size_t` computes, and a
non-integral argument fails with the fatal nested-argument error — also
when the failure arises while `read` resolves an explicit deferred
reference. -/
theorem c6_coerce_to_size :
    (∀ a : Arg, (∃ n, a.expect_size_t = .ok n) ↔ a.isIntegralKind = true) ∧
    (∀ (a : Arg) (n : Nat), a.expect_size_t = .ok n → a.to_size_t = some n) ∧
    (∀ a : Arg, a.isIntegralKind = false →
      a.expect_size_t = .error "Expected size as the nested argument.") ∧
    (∀ (ns : NestedSize) (ctx : FormatContext) (idx : Nat) (a : Arg),
      ns.arg = none → ns.arg_rep = .indirect (some idx) →
      ctx.args.get? idx = some a → a.isIntegralKind = false →
      ns.read ctx = .error ("Expected size as the nested argument.", ctx.out)) := by
  refine ⟨?_, ?_, ?_, ?_⟩
  · intro a
    cases a <;> simp [Arg.expect_size_t, Arg.to_size_t, Arg.isIntegralKind]
  · intro a n h
    cases a <;> simp [Arg.expect_size_t, Arg.to_size_t] at h ⊢ <;> omega
  · intro a h
    cases a <;> simp [Arg.isIntegralKind] at h ⊢ <;> rfl
  · intro ns ctx idx a h1 h2 h3 h4
    have hget : ctx.getArg idx = .ok a := by
      unfold FormatContext.getArg
      rw [h3]
    have hexp : a.expect_size_t = .error "Expected size as the nested argument." := by
      cases a <;> simp [Arg.isIntegralKind] at h4 ⊢ <;> rfl
    simp [NestedSize.read, h1, h2, hget, hexp]

theorem c6_witness :
    Arg.expect_size_t (.strA "Hi".toList {}) =
      .error "Expected size as the nested argument." ∧
    ({ arg_rep := .indirect (some 0), arg := none } : NestedSize).read
        { out := "x".toList, args := [.strA "Hi".toList {}], carg := 0 } =
      .error ("Expected size as the nested argument.", "x".toList) ∧
    Arg.to_size_t (.intA 9 {}) = some 9 :=
  ⟨c6_coerce_to_size.2.2.1 _ rfl,
   c6_coerce_to_size.2.2.2 _ _ 0 _ rfl rfl rfl rfl,
   c6_coerce_to_size.2.1 _ 9 (by rfl)⟩

/-- C9: a deferred width/precision reference to a negative signed integral
argument resolves without error: `std::size_t(value)` converts modulo
`2 ^ 64`, so a negative value `n` (with `-2^64 ≤ n < 0`) resolves to the
enormous size `2 ^ 64 + n`.  Concretely `-1` resolves to `2 ^ 64 - 1`. -/
theorem c9_negative_deferred_size :
    (∀ (n : Int) (f : IntegralFmt), n < 0 →
      (Arg.intA n f).expect_size_t = .ok ((n % (SIZE_MOD : Int)).toNat) ∧
      (-(SIZE_MOD : Int) ≤ n →
        ((n % (SIZE_MOD : Int)).toNat : Int) = (SIZE_MOD : Int) + n)) ∧
    (Arg.intA (-1) {}).expect_size_t = .ok (2 ^ 64 - 1) := by
  constructor
  · intro n f hn
    constructor
    · rfl
    · intro hlow
      have hM : (SIZE_MOD : Int) = (2 : Int) ^ 64 := by norm_num [SIZE_MOD]
      rw [hM] at hlow ⊢
      omega
  · rfl

theorem c9_witness :
    (Arg.intA (-3) {}).expect_size_t = .ok (((-3 : Int) % (SIZE_MOD : Int)).toNat) ∧
    ((((-3 : Int) % (SIZE_MOD : Int)).toNat : Int) = (SIZE_MOD : Int) + (-3)) := by
  refine ⟨(c9_negative_deferred_size.1 (-3) {} (by decide)).1,
    (c9_negative_deferred_size.1 (-3) {} (by decide)).2 (by norm_num [SIZE_MOD])⟩

/-- C10: a deferred `{}` width/precision reference resolves through the same
auto-increment cursor as index-less placeholders: `read` takes the argument
at `carg` and advances `carg` by one, exactly as the index-less placeholder
path does, so a later index-less placeholder selects the following
argument.  Concretely `"{:>{}}{}"` with `7, 3, 9` renders `"  79"` (the
width reference consumes `3`, the final placeholder consumes `9`). -/
theorem c10_shared_auto_cursor :
    (∀ (ns : NestedSize) (ctx : FormatContext) (a : Arg) (n : Nat),
      ns.arg = none → ns.arg_rep = .indirect none →
      ctx.args.get? ctx.carg = some a → a.expect_size_t = .ok n →
      ns.read ctx = .ok ({ ns with arg := some n }, { ctx with carg := ctx.carg + 1 })) ∧
    (∀ (ctx : FormatContext) (input : List Char), (peek input).isDigit = false →
      resolveIndex ctx input = (ctx.carg, input, { ctx with carg := ctx.carg + 1 })) ∧
    format "\x7b:>\x7b\x7d\x7d\x7b\x7d" [.intA 7 {}, .intA 3 {}, .intA 9 {}] =
      .ok "  79".toList := by
  refine ⟨?_, ?_, rfl⟩
  · intro ns ctx a n h1 h2 h3 h4
    have hnext : ctx.next = .ok (a, { ctx with carg := ctx.carg + 1 }) := by
      unfold FormatContext.next FormatContext.getArg
      rw [h3]
    simp [NestedSize.read, h1, h2, hnext, h4]
  · intro ctx input h
    unfold resolveIndex
    rw [h]
    simp

theorem NestedSize.read_of_arg_some {ns : NestedSize} {n : Nat} (h : ns.arg = some n)
    (ctx : FormatContext) : ns.read ctx = .ok (ns, ctx) := by
  unfold NestedSize.read
  rw [h]
  rfl

/-- A deferred size needing no context to resolve: already cached, or never
specified. -/
def NestedSize.inert (ns : NestedSize) : Prop :=
  ns.arg.isSome = true ∨ (ns.arg = none ∧ ns.arg_rep = .unspecified)

theorem NestedSize.read_inert {ns : NestedSize} (h : ns.inert) (ctx : FormatContext) :
    ns.read ctx = .ok (ns, ctx) := by
  unfold NestedSize.read
  rcases h with h | ⟨h1, h2⟩
  · rw [if_pos h]
  · rw [h1, h2]
    rfl

theorem FormatContext.write_write (ctx : FormatContext) (a b : List Char) :
    (ctx.write a).write b = ctx.write (a ++ b) := by
  simp [FormatContext.write, List.append_assoc]

theorem FormatContext.write_nil (ctx : FormatContext) : ctx.write [] = ctx := by
  simp [FormatContext.write]

/-- C3 as stated is false on the code: in zero-pad mode the `'0'` fill is
written immediately after the sign and before the whole core number, whose
base prefix is already glued to the digits — so the fill lands before the
prefix.  `"{:#06x}"` with `255` renders `"000xff"`; the claimed order
(sign, then prefix, then fill, then digits) would make the field start with
the `"0x"` prefix, which it does not. -/
theorem c3_counterexample :
    format "\x7b:#06x\x7d" [.intA 255 {}] =
      .ok (['0', '0', '0', 'x', 'f', 'f'] : List Char) ∧
    (∀ l : List Char, (['0', '0', '0', 'x', 'f', 'f'] : List Char) ≠ '0' :: 'x' :: l) := by
  refine ⟨rfl, ?_⟩
  intro l h
  have h2 := (List.cons.injEq _ _ _ _).mp h
  exact absurd h2.2 (by intro h3; exact absurd ((List.cons.injEq _ _ _ _).mp h3).1 (by decide))

theorem parse_sign_fmt (f : IntegralFmt) (input : List Char) :
    (parse_sign f input).1.pad = f.pad ∧ (parse_sign f input).1.pad_zero = f.pad_zero := by
  unfold parse_sign
  split <;> exact ⟨rfl, rfl⟩

theorem parse_alt_fmt (f : IntegralFmt) (input : List Char) :
    (parse_alt f input).1.pad = f.pad ∧ (parse_alt f input).1.pad_zero = f.pad_zero := by
  unfold parse_alt
  split <;> exact ⟨rfl, rfl⟩

theorem parse_zero_pad (f : IntegralFmt) (input : List Char) :
    (parse_zero f input).1.pad = f.pad := by
  unfold parse_zero
  split <;> rfl

theorem parse_zero_zero (f : IntegralFmt) (input : List Char) :
    (parse_zero f input).1.pad_zero = true → f.pad.padding = '\x00' ∨ f.pad_zero = true := by
  unfold parse_zero
  split
  · intro h
    left
    simpa using h
  · intro h
    right
    exact h

theorem parse_rep_fmt {f : IntegralFmt} {is_bool : Bool} {input : List Char}
    {f1 : IntegralFmt} {rest : List Char} (h : parse_rep f is_bool input = .ok (f1, rest)) :
    f1.pad = f.pad ∧ f1.pad_zero = f.pad_zero := by
  unfold parse_rep at h
  split at h
  · cases h
  · split at h
    · cases h
      exact ⟨rfl, rfl⟩
    · split at h
      · cases h
        exact ⟨rfl, rfl⟩
      · split at h
        · cases h
          exact ⟨rfl, rfl⟩
        · cases h

theorem parse_fill_id_of_padding_nul {p : Padded} {input : List Char}
    (h : (p.parse_fill input).1.padding = '\x00') : p.parse_fill input = (p, input) := by
  by_cases h1 : isFillChar (peek input) = true
  · exfalso
    have hx : (p.parse_fill input).1.padding = ' ' := by
      unfold Padded.parse_fill
      rw [if_pos h1]
    rw [hx] at h
    exact absurd h (by decide)
  · by_cases h2 : peek input ≠ '\x00' ∧ isFillChar (peek input.tail) = true
    · exfalso
      have hx : (p.parse_fill input).1.padding = peek input := by
        unfold Padded.parse_fill
        rw [if_neg h1, if_pos h2]
      rw [hx] at h
      exact absurd h h2.1
    · unfold Padded.parse_fill
      rw [if_neg h1, if_neg h2]

/-- C3 (amended): the zero-pad layout the code implements is sign column,
then `'0'` fill up to the width minus the length of the whole core number
(base prefix included), then the core number; since the alternate-form
prefix is glued in front of the digits when the number is built, the zero
fill precedes the prefix.  Zero-pad mode itself is recorded only when no
explicit fill/alignment was parsed. -/
theorem c3_zero_pad_amended :
    (∀ (f : IntegralFmt) (ctx : FormatContext) (number : List Char)
      (negative : Bool) (w : Nat), f.pad_zero = true → f.pad.width.arg = some w →
      numeric_format f ctx number negative =
        .ok (f, ctx.write (sign_chars f negative ++
          List.replicate (w - number.length) '0' ++ number))) ∧
    (∀ (f : IntegralFmt) (conv : Nat → List Char),
      (f.rep = 'x' ∨ f.rep = 'X' ∨ f.rep = 'b' ∨ f.rep = 'B') → f.alternate = true →
      f.make_number conv =
        .ok ('0' :: f.rep :: conv (if f.rep.toLower = 'b' then 2 else 16))) ∧
    (∀ (f0 : IntegralFmt) (is_bool : Bool) (input : List Char)
      (f1 : IntegralFmt) (rest : List Char),
      f0.pad_zero = false → f0.parse is_bool input = .ok (f1, rest) →
      f1.pad_zero = true → f0.pad.parse_fill input = (f0.pad, input)) := by
  refine ⟨?_, ?_, ?_⟩
  · intro f ctx number negative w hz hw
    have hwv : f.pad.widthVal = w := by
      simp [Padded.widthVal, hw]
    unfold numeric_format
    rw [NestedSize.read_of_arg_some hw]
    dsimp only
    rw [if_pos hz]
    by_cases hlen : number.length < f.pad.widthVal
    · rw [if_pos hlen, hwv]
      simp [FormatContext.write_write, List.append_assoc]
    · rw [if_neg hlen]
      have h0 : w - number.length = 0 := by omega
      rw [h0]
      simp [FormatContext.write_write]
  · intro f conv hrep halt
    rcases hrep with h | h | h | h <;>
      simp [IntegralFmt.make_number, h, halt]
  · intro f0 is_bool input f1 rest hpz hparse hone
    unfold IntegralFmt.parse at hparse
    dsimp only at hparse
    split at hparse
    · cases hparse
    · have hfm := parse_rep_fmt hparse
      rw [hfm.2] at hone
      rcases parse_zero_zero _ _ hone with hnul | htrue
      · rw [(parse_alt_fmt _ _).1, (parse_sign_fmt _ _).1] at hnul
        exact parse_fill_id_of_padding_nul hnul
      · rw [(parse_alt_fmt _ _).2, (parse_sign_fmt _ _).2] at htrue
        simp [hpz] at htrue

/-- The formatter state `"#06x"` parses to, used to witness the amended C3. -/
def c3fmt : IntegralFmt :=
  { pad := { fill := '>', padding := '\x00', width := { arg_rep := .direct 6, arg := some 6 } },
    sign := '-', alternate := true, pad_zero := true, rep := 'x' }

theorem c3_witness :
    numeric_format c3fmt { out := [], args := [], carg := 0 } "0xff".toList false =
      .ok (c3fmt, { out := "000xff".toList, args := [], carg := 0 }) := by
  have h := c3_zero_pad_amended.1 c3fmt
    { out := [], args := [], carg := 0 } "0xff".toList false 6 rfl rfl
  rw [h]
  rfl

theorem preChars_of_left {p : Padded} (h : p.fill = '<') (L : Nat) :
    p.preChars L = [] := by
  unfold Padded.preChars
  rw [if_neg (by simp [h])]

theorem postChars_of_left {p : Padded} (h : p.fill = '<') {L : Nat}
    (hlt : L < p.widthVal) : (p.postChars L).length = p.widthVal - L := by
  unfold Padded.postChars Padded.padChars
  rw [if_pos ⟨hlt, Or.inl h⟩, if_neg (by simp [h])]
  exact List.length_replicate _ _

theorem postChars_of_right {p : Padded} (h : p.fill = '>') (L : Nat) :
    p.postChars L = [] := by
  unfold Padded.postChars
  rw [if_neg (by simp [h])]

theorem preChars_of_right {p : Padded} (h : p.fill = '>') {L : Nat}
    (hlt : L < p.widthVal) : (p.preChars L).length = p.widthVal - L := by
  unfold Padded.preChars Padded.padChars
  rw [if_pos ⟨hlt, Or.inl h⟩, if_neg (by simp [h])]
  exact List.length_replicate _ _

theorem preChars_of_center {p : Padded} (h : p.fill = '^') {L : Nat}
    (hlt : L < p.widthVal) : (p.preChars L).length = (p.widthVal - L) / 2 := by
  unfold Padded.preChars Padded.padChars
  rw [if_pos ⟨hlt, Or.inr h⟩, if_pos h]
  rw [List.length_replicate]
  omega

theorem postChars_of_center {p : Padded} (h : p.fill = '^') {L : Nat}
    (hlt : L < p.widthVal) : (p.postChars L).length = (p.widthVal - L + 1) / 2 := by
  unfold Padded.postChars Padded.padChars
  rw [if_pos ⟨hlt, Or.inr h⟩, if_pos h]
  rw [List.length_replicate]

/-- C4: on the fill-padding path, a core of length `L` against a resolved
width `W` is padded to exactly `W` when `L < W` — left alignment pads only
trailing, right alignment only leading, centring puts `⌊(W-L)/2⌋` fill
characters before the core and `⌈(W-L)/2⌉` after it — and is left exactly
unpadded when `W ≤ L`; the string formatter's field is precisely
pre-padding, core, post-padding. -/
theorem c4_padding_invariants :
    (∀ (p : Padded) (L : Nat), (p.fill = '<' ∨ p.fill = '>' ∨ p.fill = '^') →
      ((p.widthVal ≤ L → p.preChars L = [] ∧ p.postChars L = []) ∧
       (L < p.widthVal →
         (p.preChars L).length + L + (p.postChars L).length = p.widthVal ∧
         (p.fill = '<' → (p.preChars L).length = 0) ∧
         (p.fill = '>' → (p.postChars L).length = 0) ∧
         (p.fill = '^' → (p.preChars L).length = (p.widthVal - L) / 2 ∧
           (p.postChars L).length = (p.widthVal - L + 1) / 2)))) ∧
    (∀ (fs : StringFmt) (ctx : FormatContext) (s : List Char) (w : Nat),
      fs.pad.width.arg = some w → fs.prec.arg = none →
      fs.prec.arg_rep = .unspecified →
      fs.format_to ctx s =
        .ok (fs, ctx.write (fs.pad.preChars s.length ++ s ++ fs.pad.postChars s.length))) := by
  constructor
  · intro p L hfill
    constructor
    · intro hle
      unfold Padded.preChars Padded.postChars
      rw [if_neg (by omega), if_neg (by omega)]
      exact ⟨rfl, rfl⟩
    · intro hlt
      rcases hfill with h | h | h
      · refine ⟨?_, fun _ => by rw [preChars_of_left h]; rfl, fun hc => absurd (hc.symm.trans h) (by decide),
          fun hc => absurd (hc.symm.trans h) (by decide)⟩
        rw [preChars_of_left h, postChars_of_left h hlt]
        simp
        omega
      · refine ⟨?_, fun hc => absurd (hc.symm.trans h) (by decide), fun _ => by rw [postChars_of_right h]; rfl,
          fun hc => absurd (hc.symm.trans h) (by decide)⟩
        rw [preChars_of_right h hlt, postChars_of_right h]
        simp
        omega
      · refine ⟨?_, fun hc => absurd (hc.symm.trans h) (by decide),
          fun hc => absurd (hc.symm.trans h) (by decide),
          fun _ => ⟨preChars_of_center h hlt, postChars_of_center h hlt⟩⟩
        rw [preChars_of_center h hlt, postChars_of_center h hlt]
        omega
  · intro fs ctx s w hw hpn hpu
    unfold StringFmt.format_to
    rw [NestedSize.read_of_arg_some hw]
    dsimp only
    rw [NestedSize.read_inert (Or.inr ⟨hpn, hpu⟩)]
    dsimp only
    rw [hpn]
    dsimp only
    rw [List.take_length]
    rw [FormatContext.write_write, FormatContext.write_write, List.append_assoc]

/-- A center-aligned seven-wide pad used to witness C4. -/
def c4pad : Padded :=
  { fill := '^', padding := '*', width := { arg_rep := .direct 7, arg := some 7 } }

theorem c4_witness :
    (c4pad.preChars 3).length + 3 + (c4pad.postChars 3).length = c4pad.widthVal ∧
    StringFmt.format_to { pad := c4pad } { out := [], args := [], carg := 0 } "abc".toList =
      .ok ({ pad := c4pad }, FormatContext.write { out := [], args := [], carg := 0 }
        (c4pad.preChars 3 ++ "abc".toList ++ c4pad.postChars 3)) :=
  ⟨((c4_padding_invariants.1 c4pad 3 (by decide)).2 (by decide)).1,
   c4_padding_invariants.2 { pad := c4pad } { out := [], args := [], carg := 0 }
     "abc".toList 7 rfl rfl rfl⟩

theorem c10_witness :
    ({ arg_rep := .indirect none, arg := none } : NestedSize).read
        { out := [], args := [.intA 7 {}, .intA 3 {}, .intA 9 {}], carg := 1 } =
      .ok ({ arg_rep := .indirect none, arg := some 3 },
        { out := [], args := [.intA 7 {}, .intA 3 {}, .intA 9 {}], carg := 2 }) ∧
    resolveIndex { out := [], args := [], carg := 4 } "\x7d".toList =
      (4, "\x7d".toList, { out := [], args := [], carg := 5 }) :=
  ⟨c10_shared_auto_cursor.1 _ _ (.intA 3 {}) 3 rfl rfl rfl (by rfl),
   c10_shared_auto_cursor.2.1 _ _ (by decide)⟩

theorem peek_ne_rbrace {L l : List Char} (hL : ∀ c ∈ L, c ≠ '}') (hs : l.Sublist L) :
    ¬ peek l = '}' := by
  cases l with
  | nil => decide
  | cons c rest => exact hL c (hs.subset (List.mem_cons_self c rest))

theorem tail_suffix_chr (l : List Char) : l.tail.IsSuffix l := by
  cases l with
  | nil => exact List.nil_suffix
  | cons c t => exact List.suffix_cons c t

theorem parse_number_go_suffix (acc : Nat) (l : List Char) :
    (parse_number_go acc l).2.IsSuffix l := by
  induction l generalizing acc with
  | nil => exact List.nil_suffix
  | cons c rest ih =>
    by_cases h : c.isDigit
    · simpa [parse_number_go, h] using ((ih _).trans (List.suffix_cons c rest))
    · simp [parse_number_go, h]

theorem parse_number_suffix (l : List Char) : (parse_number l).2.IsSuffix l :=
  parse_number_go_suffix 0 l

theorem ite_tail_suffix (c : Prop) [Decidable c] (l : List Char) :
    (if c then l.tail else l).IsSuffix l := by
  split
  · exact tail_suffix_chr l
  · exact List.suffix_refl l

theorem nested_parse_suffix {ns : NestedSize} {input : List Char}
    {b : Bool} {ns1 : NestedSize} {rest : List Char}
    (h : ns.parse input = .ok (b, ns1, rest)) : rest.IsSuffix input := by
  unfold NestedSize.parse at h
  split at h
  · cases h
    exact parse_number_suffix input
  · split at h
    · dsimp only at h
      split at h
      · split at h
        · cases h
          exact (tail_suffix_chr _).trans ((parse_number_suffix _).trans (tail_suffix_chr _))
        · cases h
      · split at h
        · cases h
          exact (tail_suffix_chr _).trans (tail_suffix_chr _)
        · cases h
    · cases h
      exact List.suffix_refl input

theorem parse_fill_suffix (p : Padded) (input : List Char) :
    (p.parse_fill input).2.IsSuffix input := by
  unfold Padded.parse_fill
  split
  · exact tail_suffix_chr input
  · split
    · exact (tail_suffix_chr _).trans (tail_suffix_chr input)
    · exact List.suffix_refl input

theorem parse_prec_suffix {ns ns1 : NestedSize} {input rest : List Char}
    (h : parse_prec ns input = .ok (ns1, rest)) : rest.IsSuffix input := by
  unfold parse_prec at h
  split at h
  · split at h
    · cases h
    · rename_i heq
      cases h
      exact (nested_parse_suffix heq).trans (tail_suffix_chr input)
    · cases h
  · cases h
    exact List.suffix_refl input

theorem parse_sign_suffix (f : IntegralFmt) (input : List Char) :
    (parse_sign f input).2.IsSuffix input := by
  unfold parse_sign
  split
  · exact tail_suffix_chr input
  · exact List.suffix_refl input

theorem parse_alt_suffix (f : IntegralFmt) (input : List Char) :
    (parse_alt f input).2.IsSuffix input := by
  unfold parse_alt
  split
  · exact tail_suffix_chr input
  · exact List.suffix_refl input

theorem parse_zero_suffix (f : IntegralFmt) (input : List Char) :
    (parse_zero f input).2.IsSuffix input := by
  unfold parse_zero
  split
  · exact tail_suffix_chr input
  · exact List.suffix_refl input

theorem parse_rep_suffix {f : IntegralFmt} {is_bool : Bool} {input : List Char}
    {f1 : IntegralFmt} {rest : List Char}
    (h : parse_rep f is_bool input = .ok (f1, rest)) : rest.IsSuffix input := by
  unfold parse_rep at h
  split at h
  · cases h
  · split at h
    · cases h
      exact tail_suffix_chr input
    · split at h
      · cases h
        exact List.suffix_refl input
      · split at h
        · cases h
          exact tail_suffix_chr input
        · cases h

theorem integral_parse_suffix {f0 : IntegralFmt} {is_bool : Bool}
    {input : List Char} {f1 : IntegralFmt} {rest : List Char}
    (h : f0.parse is_bool input = .ok (f1, rest)) : rest.IsSuffix input := by
  unfold IntegralFmt.parse at h
  dsimp only at h
  split at h
  · cases h
  · rename_i heq
    have htot := (nested_parse_suffix heq).trans
      ((parse_zero_suffix _ _).trans ((parse_alt_suffix _ _).trans
        ((parse_sign_suffix _ _).trans (parse_fill_suffix _ input))))
    exact (parse_rep_suffix h).trans htot

theorem string_parse_suffix {f0 : StringFmt} {input : List Char}
    {f1 : StringFmt} {rest : List Char}
    (h : f0.parse input = .ok (f1, rest)) : rest.IsSuffix input := by
  unfold StringFmt.parse at h
  dsimp only at h
  split at h
  · cases h
  · rename_i heq
    have h2 := (nested_parse_suffix heq).trans (parse_fill_suffix _ input)
    split at h
    · cases h
    · rename_i heq2
      have h3 := (parse_prec_suffix heq2).trans h2
      split at h
      · cases h
        exact (tail_suffix_chr _).trans h3
      · cases h
        exact h3

theorem arg_parse_suffix {a : Arg} {input : List Char} {a1 : Arg} {rest : List Char}
    (h : a.parse input = .ok (a1, rest)) : rest.IsSuffix input := by
  unfold Arg.parse at h
  split at h
  · split at h
    · cases h
    · rename_i heq
      cases h
      exact integral_parse_suffix heq
  · split at h
    · cases h
    · rename_i heq
      cases h
      exact integral_parse_suffix heq
  · split at h
    · cases h
    · rename_i heq
      cases h
      exact integral_parse_suffix heq
  · split at h
    · cases h
    · rename_i heq
      cases h
      exact string_parse_suffix heq
  · split at h
    · cases h
    · rename_i heq
      cases h
      exact integral_parse_suffix heq

theorem parseStep_suffix {a : Arg} {in1 : List Char} {a2 : Arg} {in2 : List Char}
    (h : parseStep a in1 = .ok (a2, in2)) : in2.IsSuffix in1 := by
  unfold parseStep at h
  split at h
  · exact (arg_parse_suffix h).trans (tail_suffix_chr _)
  · cases h
    exact List.suffix_refl _

theorem resolveIndex_suffix (ctx : FormatContext) (input : List Char) :
    (resolveIndex ctx input).2.1.IsSuffix input := by
  unfold resolveIndex
  split
  · exact parse_number_suffix input
  · exact List.suffix_refl input

theorem parse_number_go_all_digits {l : List Char}
    (h : ∀ c ∈ l, c.isDigit = true) (acc : Nat) :
    (parse_number_go acc l).2 = [] := by
  induction l generalizing acc with
  | nil => rfl
  | cons c rest ih =>
    have hc : c.isDigit = true := h c (List.mem_cons_self c rest)
    simpa [parse_number_go, hc] using
      ih (fun d hd => h d (List.mem_cons_of_mem c hd)) _

/-- C5: a template whose text ends while a placeholder is still open always
raises a fatal format error, in every phase of the placeholder grammar:
when the remaining text is (possibly empty) index digits; when resolving
the index fails; when the specifier parse fails (as it does whenever it
runs into the end-of-text terminator); and when the specifier parse
consumes the entire remaining text — even text containing `'}'` characters
eaten inside the specifier, as a nested-reference terminator or a fill
character — leaving nothing for the closing `'}'`.  Moreover a close is
never inferred implicitly: a successful placeholder scan always consumed
an explicit `'}'` immediately before the remaining input, and the scan
loop aborts with every placeholder error rather than truncating.
Concretely, `"{:0{}"` (the `'}'` closes only the nested reference),
`"{:}<5"` (the `'}'` is consumed as a fill character), `"{"`, `"{12"` and
`"{0:"` all fail. -/
theorem c5_unterminated_placeholder_fatal :
    (∀ (ctx : FormatContext) (ds : List Char), (∀ c ∈ ds, c.isDigit = true) →
      ∃ e : FmtErr, scanPlaceholder ctx ds = .error e) ∧
    (∀ (ctx : FormatContext) (input : List Char) (e : FmtErr),
      (resolveIndex ctx input).2.2.getArg (resolveIndex ctx input).1 = .error e →
      scanPlaceholder ctx input = .error e) ∧
    (∀ (ctx : FormatContext) (input : List Char) (arg0 : Arg) (m : String),
      (resolveIndex ctx input).2.2.getArg (resolveIndex ctx input).1 = .ok arg0 →
      parseStep arg0.reset_fmt (resolveIndex ctx input).2.1 = .error m →
      scanPlaceholder ctx input = .error (m, ctx.out)) ∧
    (∀ (ctx : FormatContext) (input : List Char) (arg0 arg2 : Arg),
      (resolveIndex ctx input).2.2.getArg (resolveIndex ctx input).1 = .ok arg0 →
      parseStep arg0.reset_fmt (resolveIndex ctx input).2.1 = .ok (arg2, []) →
      scanPlaceholder ctx input = .error ("Expected \x27\x7d\x27.", ctx.out)) ∧
    (∀ (ctx ctx1 : FormatContext) (input rest1 : List Char),
      scanPlaceholder ctx input = .ok (ctx1, rest1) →
      ∃ pre : List Char, pre ++ '}' :: rest1 = input) ∧
    (∀ (ctx : FormatContext) (rest : List Char) (e : FmtErr), peek rest ≠ '{' →
      scanPlaceholder ctx rest = .error e → xformat_to ctx ('{' :: rest) = .error e) ∧
    format "\x7b:0\x7b\x7d" [.intA 1 {}] = .error ("Expected \x27\x7d\x27.", []) ∧
    format "\x7b:\x7d<5" [.intA 1 {}] = .error ("Expected \x27\x7d\x27.", []) ∧
    format "\x7b" [.intA 1 {}] = .error ("Expected \x27\x7d\x27.", []) ∧
    format "\x7b12" [] = .error ("Not enough format arguments.", []) ∧
    format "\x7b0:" [.intA 1 {}] = .error ("Expected \x27\x7d\x27.", []) := by
  refine ⟨?_, ?_, ?_, ?_, ?_, ?_, rfl, rfl, rfl, rfl, rfl⟩
  · intro ctx ds hds
    have hin1 : (resolveIndex ctx ds).2.1 = [] := by
      unfold resolveIndex
      cases ds with
      | nil => simp [peek]
      | cons c rest =>
        have hc := hds c (List.mem_cons_self c rest)
        simp only [peek, hc, if_true, if_pos]
        exact parse_number_go_all_digits hds 0
    unfold scanPlaceholder
    dsimp only
    cases hga : (resolveIndex ctx ds).2.2.getArg (resolveIndex ctx ds).1 with
    | error e => exact ⟨e, rfl⟩
    | ok arg0 =>
      dsimp only
      rw [hin1]
      have hps : parseStep arg0.reset_fmt [] = .ok (arg0.reset_fmt, []) := rfl
      rw [hps]
      dsimp only
      rw [if_neg (by decide : ¬ peek ([] : List Char) = '}')]
      exact ⟨_, rfl⟩
  · intro ctx input e hga
    unfold scanPlaceholder
    dsimp only
    rw [hga]
  · intro ctx input arg0 m hga hps
    unfold scanPlaceholder
    dsimp only
    rw [hga]
    dsimp only
    rw [hps]
    dsimp only
    rw [resolveIndex_out]
  · intro ctx input arg0 arg2 hga hps
    unfold scanPlaceholder
    dsimp only
    rw [hga]
    dsimp only
    rw [hps]
    dsimp only
    rw [if_neg (by decide : ¬ peek ([] : List Char) = '}'), resolveIndex_out]
  · intro ctx ctx1 input rest1 h
    unfold scanPlaceholder at h
    dsimp only at h
    split at h
    · cases h
    · split at h
      · cases h
      · rename_i arg2 in2 heq2
        have hin2 : in2.IsSuffix input :=
          (parseStep_suffix heq2).trans (resolveIndex_suffix ctx input)
        split at h
        · rename_i hbr
          split at h
          · cases h
          · cases h
            cases in2 with
            | nil => exact absurd hbr (by decide)
            | cons c t =>
              have hc : c = '}' := hbr
              subst hc
              obtain ⟨pre, hpre⟩ := hin2
              exact ⟨pre, hpre⟩
        · cases h
  · intro ctx rest e hpk hsp
    rw [xformat_to_cons]
    simp [hpk, hsp]

theorem c5_witness :
    (∃ e : FmtErr, scanPlaceholder { out := [], args := [.intA 1 {}], carg := 0 }
      "12".toList = .error e) ∧
    (∃ pre : List Char, pre ++ '}' :: "x".toList = "0\x7dx".toList) ∧
    scanPlaceholder { out := [], args := [.intA 1 {}], carg := 0 } ":0".toList =
      .error ("Expected \x27\x7d\x27.", []) ∧
    xformat_to { out := [], args := [.intA 1 {}], carg := 0 } ('{' :: ":0".toList) =
      .error ("Expected \x27\x7d\x27.", []) :=
  ⟨c5_unterminated_placeholder_fatal.1 _ _ (by decide),
   c5_unterminated_placeholder_fatal.2.2.2.2.1
     { out := [], args := [.intA 7 {}], carg := 0 } _ "0\x7dx".toList _ (by rfl),
   c5_unterminated_placeholder_fatal.2.2.1 _ _ (.intA 1 {}) _ (by rfl) (by rfl),
   c5_unterminated_placeholder_fatal.2.2.2.2.2.1 _ _ _ (by decide)
     (c5_unterminated_placeholder_fatal.2.2.1 _ _ (.intA 1 {}) _ (by rfl) (by rfl))⟩

/-- The representation codes `IntegralFormatter::format` implements (the
reachable ones: the defaults `'d'`/`'s'`/`'c'` and everything `parse`
accepts). -/
def IntegralFmt.repValid (f : IntegralFmt) : Bool :=
  f.rep = 'b' || f.rep = 'B' || f.rep = 'x' || f.rep = 'X' || f.rep = 'c' ||
  f.rep = 'd' || f.rep = '\x00' || f.rep = 'o' || f.rep = 's'

/-- The core number `IntegralFormatter::format` builds for an implemented
representation, prefix included. -/
def mkNumber (f : IntegralFmt) (conv : Nat → List Char) : List Char :=
  if f.rep = 'b' ∨ f.rep = 'B' ∨ f.rep = 'x' ∨ f.rep = 'X' then
    (if f.alternate then ['0', f.rep] else []) ++
      conv (if f.rep.toLower = 'b' then 2 else 16)
  else if f.rep = 'c' ∨ f.rep = 'd' ∨ f.rep = '\x00' then
    conv (if f.rep = 'c' then 0 else 10)
  else if f.rep = 'o' then (if f.alternate then ['0'] else []) ++ conv 8
  else conv 1

theorem make_number_of_valid {f : IntegralFmt} (h : f.repValid = true)
    (conv : Nat → List Char) : f.make_number conv = .ok (mkNumber f conv) := by
  unfold IntegralFmt.repValid at h
  simp only [Bool.or_eq_true, decide_eq_true_eq] at h
  unfold IntegralFmt.make_number mkNumber
  rcases h with ((((((((h | h) | h) | h) | h) | h) | h) | h) | h) <;> simp [h]

/-- The characters one `NumericFormatter::format` call writes once the
width is resolved. -/
def intCore (f : IntegralFmt) (number : List Char) (negative : Bool) : List Char :=
  if f.pad_zero = true then
    sign_chars f negative ++ List.replicate (f.pad.widthVal - number.length) '0' ++ number
  else
    f.pad.preChars ((sign_chars f negative).length + number.length) ++
      sign_chars f negative ++ number ++
      f.pad.postChars ((sign_chars f negative).length + number.length)

/-- The characters one element contributes when the shared formatter state
needs no further width resolution. -/
def intElemOut (f : IntegralFmt) (x : Int) : List Char :=
  intCore f (mkNumber f (intConv x.natAbs)) (decide (x < 0))

theorem intFormat_to_inert {f : IntegralFmt} (hv : f.repValid = true)
    (hw : f.pad.width.inert) (ctx : FormatContext) (x : Int) :
    intFormat_to f ctx x = .ok (f, ctx.write (intElemOut f x)) := by
  unfold intFormat_to IntegralFmt.format
  rw [NestedSize.read_inert hw]
  dsimp only
  rw [make_number_of_valid hv]
  dsimp only
  unfold numeric_format
  rw [NestedSize.read_inert hw]
  dsimp only
  unfold intElemOut intCore
  by_cases hz : f.pad_zero = true
  · rw [if_pos hz, if_pos hz]
    by_cases hlen : (mkNumber f (intConv x.natAbs)).length < f.pad.widthVal
    · rw [if_pos hlen]
      rw [FormatContext.write_write, FormatContext.write_write, List.append_assoc]
    · rw [if_neg hlen]
      have h0 : f.pad.widthVal - (mkNumber f (intConv x.natAbs)).length = 0 := by omega
      rw [h0]
      rw [FormatContext.write_write]
      simp
  · rw [if_neg hz, if_neg hz]
    rw [FormatContext.write_write, FormatContext.write_write, FormatContext.write_write]
    simp [List.append_assoc]

theorem listRest_inert {f : IntegralFmt} (hv : f.repValid = true)
    (hw : f.pad.width.inert) :
    ∀ (l : List Int) (ctx : FormatContext),
      listRest f ctx l =
        .ok (f, ctx.write ((l.map (fun x => ", ".toList ++ intElemOut f x)).flatten)) := by
  intro l
  induction l with
  | nil =>
    intro ctx
    simp [listRest, FormatContext.write_nil]
  | cons x xs ih =>
    intro ctx
    unfold listRest
    rw [intFormat_to_inert hv hw]
    dsimp only
    rw [ih]
    rw [FormatContext.write_write, FormatContext.write_write]
    simp [List.append_assoc]

theorem intercalate_cons_eq (sep a : List Char) (xs : List (List Char)) :
    List.intercalate sep (a :: xs) = a ++ (xs.map (fun y => sep ++ y)).flatten := by
  induction xs generalizing a with
  | nil => simp [List.intercalate]
  | cons b bs ih =>
    unfold List.intercalate at ih ⊢
    rw [List.intersperse_cons_cons, List.flatten_cons, List.flatten_cons, ih b]
    simp [List.append_assoc]

/-- C8: the container formatter writes `'['`, the elements separated by
`", "` — every element rendered by the one shared parsed element-formatter
state, never re-parsed — then `']'`; an empty sequence renders `"[]"`.
Concretely `"{}"` renders `1, 2, 3` as `"[1, 2, 3]"` and the empty
sequence as `"[]"`. -/
theorem c8_sequence_rendering :
    (∀ (f : IntegralFmt) (ctx : FormatContext),
      listFormat_to f ctx [] = .ok (f, ctx.write "[]".toList)) ∧
    (∀ (f : IntegralFmt) (ctx : FormatContext) (l : List Int),
      f.repValid = true → f.pad.width.inert →
      listFormat_to f ctx l =
        .ok (f, ctx.write ('[' ::
          (List.intercalate ", ".toList (l.map (intElemOut f)) ++ [']'])))) ∧
    format "\x7b\x7d" [.listA [1, 2, 3] {}] = .ok "[1, 2, 3]".toList ∧
    format "\x7b\x7d" [.listA [] {}] = .ok "[]".toList := by
  refine ⟨?_, ?_, rfl, rfl⟩
  · intro f ctx
    simp [listFormat_to, FormatContext.write_write]
  · intro f ctx l hv hw
    cases l with
    | nil =>
      simp [listFormat_to, FormatContext.write_write, List.intercalate]
    | cons x xs =>
      unfold listFormat_to
      dsimp only
      rw [intFormat_to_inert hv hw]
      dsimp only
      rw [listRest_inert hv hw]
      dsimp only
      rw [List.map_cons, intercalate_cons_eq]
      rw [FormatContext.write_write, FormatContext.write_write, FormatContext.write_write]
      simp [List.append_assoc, List.map_map]
      rfl

theorem c8_witness :
    listFormat_to {} { out := [], args := [], carg := 0 } [1, 2] =
      .ok ({}, { out := "[1, 2]".toList, args := [], carg := 0 }) := by
  have h := c8_sequence_rendering.2.1 {} { out := [], args := [], carg := 0 } [1, 2]
    (by decide) (Or.inr ⟨rfl, rfl⟩)
  rw [h]
  rfl

/-! Machinery for C7: the formatting stage observes the argument list only
through `to_size_t`, so two contexts agreeing on output, cursor and the
size view of their arguments behave identically — stale formatter state
stored in an argument can never influence a later placeholder, because the
engine resets it before parsing. -/

/-- Contexts that agree on everything the formatting stage can observe:
sink contents, auto-increment cursor, and each argument's `to_size_t`
view.  The stored formatter states may differ. -/
def FormatContext.SameView (ctx ctx' : FormatContext) : Prop :=
  ctx.out = ctx'.out ∧ ctx.carg = ctx'.carg ∧
  ctx.args.map Arg.to_size_t = ctx'.args.map Arg.to_size_t

/-- Result agreement under `FormatContext.SameView`: equal errors, or equal
payloads with related contexts. -/
def ResAgree {α : Type} :
    Except FmtErr (α × FormatContext) → Except FmtErr (α × FormatContext) → Prop
  | .error e, .error e' => e = e'
  | .ok (a, c), .ok (a', c') => a = a' ∧ c.SameView c'
  | _, _ => False

theorem FormatContext.SameView.write {ctx ctx' : FormatContext}
    (h : ctx.SameView ctx') (s : List Char) :
    (ctx.write s).SameView (ctx'.write s) := by
  obtain ⟨h1, h2, h3⟩ := h
  exact ⟨by simp [FormatContext.write, h1], h2, h3⟩

theorem get?_size_congr {ctx ctx' : FormatContext}
    (hsz : ctx.args.map Arg.to_size_t = ctx'.args.map Arg.to_size_t) (i : Nat) :
    (ctx.args.get? i).map Arg.to_size_t = (ctx'.args.get? i).map Arg.to_size_t := by
  rw [← List.get?_map, ← List.get?_map, hsz]

theorem read_agree {ctx ctx' : FormatContext} (h : ctx.SameView ctx') (ns : NestedSize) :
    ResAgree (ns.read ctx) (ns.read ctx') := by
  obtain ⟨hout, hcarg, hsz⟩ := h
  unfold NestedSize.read
  by_cases hs : ns.arg.isSome = true
  · rw [if_pos hs, if_pos hs]
    exact ⟨rfl, hout, hcarg, hsz⟩
  · rw [if_neg hs, if_neg hs]
    cases ns.arg_rep with
    | unspecified => exact ⟨rfl, hout, hcarg, hsz⟩
    | direct n => exact ⟨rfl, hout, hcarg, hsz⟩
    | indirect io =>
      cases io with
      | none =>
        unfold FormatContext.next FormatContext.getArg
        rw [hcarg]
        have hg := get?_size_congr hsz ctx'.carg
        cases hget : ctx.args.get? ctx'.carg with
        | none =>
          rw [hget] at hg
          cases hget' : ctx'.args.get? ctx'.carg with
          | none =>
            dsimp only
            rw [hout]
            rfl
          | some a' =>
            rw [hget'] at hg
            simp at hg
        | some a =>
          rw [hget] at hg
          cases hget' : ctx'.args.get? ctx'.carg with
          | none =>
            rw [hget'] at hg
            simp at hg
          | some a' =>
            rw [hget'] at hg
            simp only [Option.map_some'] at hg
            have hsz2 : a.to_size_t = a'.to_size_t := by injection hg
            dsimp only
            unfold Arg.expect_size_t
            rw [hsz2]
            cases a'.to_size_t with
            | none =>
              dsimp only
              rw [hout]
              rfl
            | some n =>
              dsimp only
              exact ⟨rfl, hout, by simp [hcarg], hsz⟩
      | some idx =>
        dsimp only
        unfold FormatContext.getArg
        have hg := get?_size_congr hsz idx
        cases hget : ctx.args.get? idx with
        | none =>
          rw [hget] at hg
          cases hget' : ctx'.args.get? idx with
          | none =>
            dsimp only
            rw [hout]
            rfl
          | some a' =>
            rw [hget'] at hg
            simp at hg
        | some a =>
          rw [hget] at hg
          cases hget' : ctx'.args.get? idx with
          | none =>
            rw [hget'] at hg
            simp at hg
          | some a' =>
            rw [hget'] at hg
            simp only [Option.map_some'] at hg
            have hsz2 : a.to_size_t = a'.to_size_t := by injection hg
            dsimp only
            unfold Arg.expect_size_t
            rw [hsz2]
            cases a'.to_size_t with
            | none =>
              dsimp only
              rw [hout]
              rfl
            | some n =>
              dsimp only
              exact ⟨rfl, hout, hcarg, hsz⟩

theorem NestedSize.read_ok_inert {ns ns1 : NestedSize} {ctx c1 : FormatContext}
    (h : ns.read ctx = .ok (ns1, c1)) : ns1.inert := by
  unfold NestedSize.read at h
  split at h
  · cases h
    exact Or.inl ‹_›
  · rename_i hns
    have harg : ns.arg = none := by
      cases hx : ns.arg
      · rfl
      · rw [hx] at hns
        simp at hns
    split at h
    · cases h
      exact Or.inr ⟨harg, ‹_›⟩
    · cases h
      exact Or.inl rfl
    · split at h
      · cases h
      · split at h
        · cases h
          exact Or.inl rfl
        · cases h
    · split at h
      · cases h
      · split at h
        · cases h
          exact Or.inl rfl
        · cases h

theorem numeric_format_eq_err {f : IntegralFmt} {ctx : FormatContext} {e : FmtErr}
    (hr : f.pad.width.read ctx = .error e) (number : List Char) (negative : Bool) :
    numeric_format f ctx number negative = .error e := by
  unfold numeric_format
  rw [hr]

theorem numeric_format_eq_ok {f : IntegralFmt} {ctx c1 : FormatContext} {w1 : NestedSize}
    (hr : f.pad.width.read ctx = .ok (w1, c1)) (number : List Char) (negative : Bool) :
    numeric_format f ctx number negative =
      .ok ({ f with pad := { f.pad with width := w1 } },
        c1.write (intCore { f with pad := { f.pad with width := w1 } } number negative)) := by
  unfold numeric_format intCore Padded.widthVal
  rw [hr]
  dsimp only
  by_cases hz : f.pad_zero = true
  · rw [if_pos hz, if_pos hz]
    by_cases hlen : number.length < w1.arg.getD 0
    · rw [if_pos hlen]
      simp [FormatContext.write, sign_chars, List.append_assoc]
    · rw [if_neg hlen]
      have h0 : w1.arg.getD 0 - number.length = 0 := by omega
      rw [h0]
      simp [FormatContext.write, sign_chars, List.append_assoc]
  · rw [if_neg hz, if_neg hz]
    simp [FormatContext.write, sign_chars, List.append_assoc]

theorem format_eq_err {f : IntegralFmt} {ctx : FormatContext} {e : FmtErr}
    (hr : f.pad.width.read ctx = .error e) (conv : Nat → List Char) (negative : Bool) :
    f.format ctx conv negative = .error e := by
  unfold IntegralFmt.format
  rw [hr]

theorem format_eq_ok {f : IntegralFmt} {ctx c1 : FormatContext} {w1 : NestedSize}
    (hr : f.pad.width.read ctx = .ok (w1, c1)) (conv : Nat → List Char) (negative : Bool) :
    f.format ctx conv negative =
      match IntegralFmt.make_number { f with pad := { f.pad with width := w1 } } conv with
      | .error m => .error (m, c1.out)
      | .ok number =>
        .ok ({ f with pad := { f.pad with width := w1 } },
          c1.write (intCore { f with pad := { f.pad with width := w1 } } number negative)) := by
  unfold IntegralFmt.format
  rw [hr]
  dsimp only
  cases hmn : IntegralFmt.make_number { f with pad := { f.pad with width := w1 } } conv with
  | error m => rfl
  | ok number =>
    dsimp only
    exact numeric_format_eq_ok
      (NestedSize.read_inert (NestedSize.read_ok_inert hr) c1) number negative

theorem intFormat_to_agree {ctx ctx' : FormatContext} (h : ctx.SameView ctx')
    (f : IntegralFmt) (x : Int) :
    ResAgree (intFormat_to f ctx x) (intFormat_to f ctx' x) := by
  unfold intFormat_to
  have hra := read_agree h f.pad.width
  cases hr : f.pad.width.read ctx with
  | error e =>
    cases hr' : f.pad.width.read ctx' with
    | error e' =>
      rw [hr, hr'] at hra
      rw [format_eq_err hr, format_eq_err hr']
      exact hra
    | ok p =>
      rw [hr, hr'] at hra
      exact absurd hra (by cases p; simp [ResAgree])
  | ok p =>
    obtain ⟨w1, c1⟩ := p
    cases hr' : f.pad.width.read ctx' with
    | error e' =>
      rw [hr, hr'] at hra
      exact absurd hra (by simp [ResAgree])
    | ok p' =>
      obtain ⟨w1', c1'⟩ := p'
      rw [hr, hr'] at hra
      obtain ⟨hw, hc⟩ := hra
      subst hw
      rw [format_eq_ok hr, format_eq_ok hr']
      cases hmn : IntegralFmt.make_number { f with pad := { f.pad with width := w1 } }
          (intConv x.natAbs) with
      | error m =>
        dsimp only
        rw [hc.1]
        rfl
      | ok number =>
        dsimp only
        exact ⟨rfl, hc.write _⟩

theorem strFormat_to_agree {ctx ctx' : FormatContext} (h : ctx.SameView ctx')
    (f : StringFmt) (s : List Char) :
    ResAgree (f.format_to ctx s) (f.format_to ctx' s) := by
  unfold StringFmt.format_to
  have hra := read_agree h f.pad.width
  cases hr : f.pad.width.read ctx with
  | error e =>
    cases hr' : f.pad.width.read ctx' with
    | error e' =>
      rw [hr, hr'] at hra
      exact hra
    | ok p =>
      rw [hr, hr'] at hra
      exact absurd hra (by cases p; simp [ResAgree])
  | ok p =>
    obtain ⟨w1, c1⟩ := p
    cases hr' : f.pad.width.read ctx' with
    | error e' =>
      rw [hr, hr'] at hra
      exact absurd hra (by simp [ResAgree])
    | ok p' =>
      obtain ⟨w1', c1'⟩ := p'
      rw [hr, hr'] at hra
      obtain ⟨hw, hc⟩ := hra
      subst hw
      dsimp only
      have hrp := read_agree hc f.prec
      cases hp : f.prec.read c1 with
      | error e =>
        cases hp' : f.prec.read c1' with
        | error e' =>
          rw [hp, hp'] at hrp
          exact hrp
        | ok q =>
          rw [hp, hp'] at hrp
          exact absurd hrp (by cases q; simp [ResAgree])
      | ok q =>
        obtain ⟨pr, c2⟩ := q
        cases hp' : f.prec.read c1' with
        | error e' =>
          rw [hp, hp'] at hrp
          exact absurd hrp (by simp [ResAgree])
        | ok q' =>
          obtain ⟨pr', c2'⟩ := q'
          rw [hp, hp'] at hrp
          obtain ⟨hpq, hc2⟩ := hrp
          subst hpq
          dsimp only
          exact ⟨rfl, ((hc2.write _).write _).write _⟩

theorem listRest_agree :
    ∀ (l : List Int) (f : IntegralFmt) {ctx ctx' : FormatContext}, ctx.SameView ctx' →
      ResAgree (listRest f ctx l) (listRest f ctx' l) := by
  intro l
  induction l with
  | nil =>
    intro f ctx ctx' h
    exact ⟨rfl, h⟩
  | cons x xs ih =>
    intro f ctx ctx' h
    unfold listRest
    have hel := intFormat_to_agree (h.write ", ".toList) f x
    cases he : intFormat_to f (ctx.write ", ".toList) x with
    | error e =>
      cases he' : intFormat_to f (ctx'.write ", ".toList) x with
      | error e' =>
        rw [he, he'] at hel
        exact hel
      | ok p =>
        rw [he, he'] at hel
        exact absurd hel (by cases p; simp [ResAgree])
    | ok p =>
      obtain ⟨f1, c1⟩ := p
      cases he' : intFormat_to f (ctx'.write ", ".toList) x with
      | error e' =>
        rw [he, he'] at hel
        exact absurd hel (by simp [ResAgree])
      | ok p' =>
        obtain ⟨f1', c1'⟩ := p'
        rw [he, he'] at hel
        obtain ⟨hf, hcv⟩ := hel
        subst hf
        exact ih f1 hcv

theorem listFormat_to_agree {ctx ctx' : FormatContext} (h : ctx.SameView ctx')
    (f : IntegralFmt) (l : List Int) :
    ResAgree (listFormat_to f ctx l) (listFormat_to f ctx' l) := by
  unfold listFormat_to
  cases l with
  | nil => exact ⟨rfl, (h.write _).write _⟩
  | cons x xs =>
    dsimp only
    have hel := intFormat_to_agree (h.write ['[']) f x
    cases he : intFormat_to f (ctx.write ['[']) x with
    | error e =>
      cases he' : intFormat_to f (ctx'.write ['[']) x with
      | error e' =>
        rw [he, he'] at hel
        exact hel
      | ok p =>
        rw [he, he'] at hel
        exact absurd hel (by cases p; simp [ResAgree])
    | ok p =>
      obtain ⟨f1, c1⟩ := p
      cases he' : intFormat_to f (ctx'.write ['[']) x with
      | error e' =>
        rw [he, he'] at hel
        exact absurd hel (by simp [ResAgree])
      | ok p' =>
        obtain ⟨f1', c1'⟩ := p'
        rw [he, he'] at hel
        obtain ⟨hf, hcv⟩ := hel
        subst hf
        dsimp only
        have hrest := listRest_agree xs f1 hcv
        cases hre : listRest f1 c1 xs with
        | error e =>
          cases hre' : listRest f1 c1' xs with
          | error e' =>
            rw [hre, hre'] at hrest
            exact hrest
          | ok q =>
            rw [hre, hre'] at hrest
            exact absurd hrest (by cases q; simp [ResAgree])
        | ok q =>
          obtain ⟨f2, c2⟩ := q
          cases hre' : listRest f1 c1' xs with
          | error e' =>
            rw [hre, hre'] at hrest
            exact absurd hrest (by simp [ResAgree])
          | ok q' =>
            obtain ⟨f2', c2'⟩ := q'
            rw [hre, hre'] at hrest
            obtain ⟨hf2, hcv2⟩ := hrest
            subst hf2
            exact ⟨rfl, hcv2.write _⟩

theorem Arg.format_to_agree {ctx ctx' : FormatContext} (h : ctx.SameView ctx') (a : Arg) :
    ResAgree (a.format_to ctx) (a.format_to ctx') := by
  cases a with
  | intA n f =>
    unfold Arg.format_to
    dsimp only
    have hel := intFormat_to_agree h f n
    cases he : intFormat_to f ctx n with
    | error e =>
      cases he' : intFormat_to f ctx' n with
      | error e' =>
        rw [he, he'] at hel
        exact hel
      | ok p =>
        rw [he, he'] at hel
        exact absurd hel (by cases p; simp [ResAgree])
    | ok p =>
      obtain ⟨f1, c1⟩ := p
      cases he' : intFormat_to f ctx' n with
      | error e' =>
        rw [he, he'] at hel
        exact absurd hel (by simp [ResAgree])
      | ok p' =>
        obtain ⟨f1', c1'⟩ := p'
        rw [he, he'] at hel
        obtain ⟨hf, hcv⟩ := hel
        subst hf
        exact ⟨rfl, hcv⟩
  | boolA b f =>
    unfold Arg.format_to
    dsimp only
    have hel := intFormat_to_agree h f (if b then 1 else 0)
    cases he : intFormat_to f ctx (if b then 1 else 0) with
    | error e =>
      cases he' : intFormat_to f ctx' (if b then 1 else 0) with
      | error e' =>
        rw [he, he'] at hel
        exact hel
      | ok p =>
        rw [he, he'] at hel
        exact absurd hel (by cases p; simp [ResAgree])
    | ok p =>
      obtain ⟨f1, c1⟩ := p
      cases he' : intFormat_to f ctx' (if b then 1 else 0) with
      | error e' =>
        rw [he, he'] at hel
        exact absurd hel (by simp [ResAgree])
      | ok p' =>
        obtain ⟨f1', c1'⟩ := p'
        rw [he, he'] at hel
        obtain ⟨hf, hcv⟩ := hel
        subst hf
        exact ⟨rfl, hcv⟩
  | charA c f =>
    unfold Arg.format_to
    dsimp only
    have hel := intFormat_to_agree h f (c.toNat : Int)
    cases he : intFormat_to f ctx (c.toNat : Int) with
    | error e =>
      cases he' : intFormat_to f ctx' (c.toNat : Int) with
      | error e' =>
        rw [he, he'] at hel
        exact hel
      | ok p =>
        rw [he, he'] at hel
        exact absurd hel (by cases p; simp [ResAgree])
    | ok p =>
      obtain ⟨f1, c1⟩ := p
      cases he' : intFormat_to f ctx' (c.toNat : Int) with
      | error e' =>
        rw [he, he'] at hel
        exact absurd hel (by simp [ResAgree])
      | ok p' =>
        obtain ⟨f1', c1'⟩ := p'
        rw [he, he'] at hel
        obtain ⟨hf, hcv⟩ := hel
        subst hf
        exact ⟨rfl, hcv⟩
  | strA s f =>
    unfold Arg.format_to
    dsimp only
    have hel := strFormat_to_agree h f s
    cases he : f.format_to ctx s with
    | error e =>
      cases he' : f.format_to ctx' s with
      | error e' =>
        rw [he, he'] at hel
        exact hel
      | ok p =>
        rw [he, he'] at hel
        exact absurd hel (by cases p; simp [ResAgree])
    | ok p =>
      obtain ⟨f1, c1⟩ := p
      cases he' : f.format_to ctx' s with
      | error e' =>
        rw [he, he'] at hel
        exact absurd hel (by simp [ResAgree])
      | ok p' =>
        obtain ⟨f1', c1'⟩ := p'
        rw [he, he'] at hel
        obtain ⟨hf, hcv⟩ := hel
        subst hf
        exact ⟨rfl, hcv⟩
  | listA l f =>
    unfold Arg.format_to
    dsimp only
    have hel := listFormat_to_agree h f l
    cases he : listFormat_to f ctx l with
    | error e =>
      cases he' : listFormat_to f ctx' l with
      | error e' =>
        rw [he, he'] at hel
        exact hel
      | ok p =>
        rw [he, he'] at hel
        exact absurd hel (by cases p; simp [ResAgree])
    | ok p =>
      obtain ⟨f1, c1⟩ := p
      cases he' : listFormat_to f ctx' l with
      | error e' =>
        rw [he, he'] at hel
        exact absurd hel (by simp [ResAgree])
      | ok p' =>
        obtain ⟨f1', c1'⟩ := p'
        rw [he, he'] at hel
        obtain ⟨hf, hcv⟩ := hel
        subst hf
        exact ⟨rfl, hcv⟩

/-- The observable part of a placeholder scan: sink contents, cursor and
remaining input (the stored formatter states are dropped — they are dead
state, overwritten by the reset that precedes every use). -/
def scanView : Except FmtErr (FormatContext × List Char) →
    Except FmtErr ((List Char × Nat) × List Char)
  | .ok (ctx, rest) => .ok ((ctx.out, ctx.carg), rest)
  | .error e => .error e

/-- C7: every placeholder resets the selected argument's formatter to its
default state before parsing, so the observable outcome of scanning a
placeholder (bytes written, cursor, remaining input, or the error) never
depends on formatter state left over from an earlier occurrence: two
contexts with the same output, cursor and arguments-up-to-formatter-state
scan identically.  Concretely, `"{0:x} {0}"` with `255` renders
`"ff 255"` — the second occurrence of slot 0 is not affected by the first
occurrence's hexadecimal specifier. -/
theorem c7_reset_before_parse :
    (∀ (ctx ctx' : FormatContext) (input : List Char),
      ctx.out = ctx'.out → ctx.carg = ctx'.carg →
      ctx.args.map Arg.reset_fmt = ctx'.args.map Arg.reset_fmt →
      scanView (scanPlaceholder ctx input) = scanView (scanPlaceholder ctx' input)) ∧
    format "\x7b0:x\x7d \x7b0\x7d" [.intA 255 {}] = .ok "ff 255".toList := by
  refine ⟨?_, rfl⟩
  intro ctx ctx' input hout hcarg hreset
  have hcomp : (Arg.to_size_t ∘ Arg.reset_fmt) = Arg.to_size_t := by
    funext a
    cases a <;> rfl
  have hsz : ctx.args.map Arg.to_size_t = ctx'.args.map Arg.to_size_t := by
    have h1 : ∀ (l : List Arg),
        l.map Arg.to_size_t = (l.map Arg.reset_fmt).map Arg.to_size_t := by
      intro l
      rw [List.map_map, hcomp]
    rw [h1 ctx.args, h1 ctx'.args, hreset]
  have hri1 : (resolveIndex ctx input).1 = (resolveIndex ctx' input).1 := by
    unfold resolveIndex
    split <;> simp [hcarg]
  have hri2 : (resolveIndex ctx input).2.1 = (resolveIndex ctx' input).2.1 := by
    unfold resolveIndex
    split <;> rfl
  have hsv : (resolveIndex ctx input).2.2.SameView (resolveIndex ctx' input).2.2 := by
    unfold resolveIndex
    split
    · exact ⟨hout, hcarg, hsz⟩
    · exact ⟨hout, by simp [hcarg], hsz⟩
  have hargs : (resolveIndex ctx input).2.2.args.map Arg.reset_fmt =
      (resolveIndex ctx' input).2.2.args.map Arg.reset_fmt := by
    rw [resolveIndex_args, resolveIndex_args, hreset]
  unfold scanPlaceholder
  dsimp only
  rw [← hri1, ← hri2]
  unfold FormatContext.getArg
  have hgr : ((resolveIndex ctx input).2.2.args.get? (resolveIndex ctx input).1).map
        Arg.reset_fmt =
      ((resolveIndex ctx' input).2.2.args.get? (resolveIndex ctx input).1).map
        Arg.reset_fmt := by
    rw [← List.get?_map, ← List.get?_map, hargs]
  cases hget : (resolveIndex ctx input).2.2.args.get? (resolveIndex ctx input).1 with
  | none =>
    rw [hget] at hgr
    cases hget' : (resolveIndex ctx' input).2.2.args.get? (resolveIndex ctx input).1 with
    | none =>
      dsimp only
      rw [resolveIndex_out, resolveIndex_out, hout]
    | some a' =>
      rw [hget'] at hgr
      simp at hgr
  | some a =>
    rw [hget] at hgr
    cases hget' : (resolveIndex ctx' input).2.2.args.get? (resolveIndex ctx input).1 with
    | none =>
      rw [hget'] at hgr
      simp at hgr
    | some a' =>
      rw [hget'] at hgr
      simp only [Option.map_some'] at hgr
      have har : a.reset_fmt = a'.reset_fmt := by injection hgr
      dsimp only
      rw [har]
      cases hps : parseStep a'.reset_fmt (resolveIndex ctx input).2.1 with
      | error m =>
        dsimp only
        rw [resolveIndex_out, resolveIndex_out, hout]
      | ok p =>
        obtain ⟨arg2, in2⟩ := p
        dsimp only
        by_cases hbr : peek in2 = '}'
        · rw [if_pos hbr, if_pos hbr]
          have hfa := Arg.format_to_agree hsv arg2
          cases hf : arg2.format_to (resolveIndex ctx input).2.2 with
          | error e =>
            cases hf' : arg2.format_to (resolveIndex ctx' input).2.2 with
            | error e' =>
              rw [hf, hf'] at hfa
              rw [hfa]
            | ok q =>
              rw [hf, hf'] at hfa
              exact absurd hfa (by cases q; simp [ResAgree])
          | ok q =>
            obtain ⟨arg3, c2⟩ := q
            cases hf' : arg2.format_to (resolveIndex ctx' input).2.2 with
            | error e' =>
              rw [hf, hf'] at hfa
              exact absurd hfa (by simp [ResAgree])
            | ok q' =>
              obtain ⟨arg3', c2'⟩ := q'
              rw [hf, hf'] at hfa
              obtain ⟨ha3, hc2⟩ := hfa
              subst ha3
              simp [scanView, hc2.1, hc2.2.1]
        · rw [if_neg hbr, if_neg hbr]
          rw [resolveIndex_out, resolveIndex_out, hout]

theorem c7_witness :
    scanView (scanPlaceholder
        { out := [], args := [.intA 255 { rep := 'x', alternate := true }], carg := 0 }
        "0\x7d".toList) =
      scanView (scanPlaceholder { out := [], args := [.intA 255 {}], carg := 0 }
        "0\x7d".toList) :=
  c7_reset_before_parse.1
    { out := [], args := [.intA 255 { rep := 'x', alternate := true }], carg := 0 }
    { out := [], args := [.intA 255 {}], carg := 0 } "0\x7d".toList rfl rfl rfl

end Safmat
